import Mathlib

/-!
Verification development for the e-sign backend (`src/unnamed/part_000`,
an Express + MySQL signing service).  The definitions below are a shallow
embedding of the pure helpers and of the two signing request handlers
(`/api/contracts/:documentId/customer-sign` and `.../company-sign`).

Modelling conventions:
* JS strings are Lean `String`s; `String.length` stands in for the
  UTF-16 `length` used by JS (identical on the ASCII identifiers involved).
* JS `null`/`undefined` values are `Option`; JS string truthiness is
  `optTruthy` (`null` and `""` are falsy).
* The MySQL rows touched by the handlers are explicit structures; one
  contract per state (handlers always operate on a single contract row).
* I/O collaborators (puppeteer render, OneAuthen signing, nodemailer)
  are modelled by a record of boolean outcomes (`ExtEnv`): the handler
  code only branches on success/failure of those calls.
-/

namespace ESign

/-! ## String utilities (embedding of the JS helpers) -/

/-- Whitespace test used by `trimChars`, approximating JS `String.trim`. -/
def isWsChar (c : Char) : Bool :=
  c = ' ' || c = '\t' || c = '\n' || c = '\r'

/-- Trim on `List Char`: drop leading and trailing whitespace
(embeds JS `String.prototype.trim`). -/
def trimChars (l : List Char) : List Char :=
  ((l.dropWhile isWsChar).reverse.dropWhile isWsChar).reverse

/-- JS `String(s).trim()`. -/
def jsTrim (s : String) : String :=
  String.mk (trimChars s.data)

/-- Embeds `safeStr(s, max)`: `null` stays `null`, the string is trimmed,
an empty result becomes `null`, and anything longer than `max` is cut to
its first `max` characters (`v.slice(0, max)`). -/
def safeStr (s : Option String) (max : Nat) : Option String :=
  match s with
  | none => none
  | some s =>
    let v := jsTrim s
    if v = "" then none
    else if v.length > max then some (String.mk (v.data.take max)) else some v

/-- Embeds `validateRoleBasic(role)`: non-empty string of length at most 100.
(The JS falsy test on a string argument is exactly the empty-string test.) -/
def validateRoleBasic (role : String) : Bool :=
  role ≠ "" && role.length ≤ 100

/-- Embeds `isDataUrl`: a string starting with `"data:image/"` (the
prefix test is done on the character list); a missing payload (`null`)
is not a data URL. -/
def isDataUrl (s : Option String) : Bool :=
  match s with
  | some s => "data:image/".data.isPrefixOf s.data
  | none => false

/-- JS truthiness of a nullable string: `null` and `""` are falsy. -/
def optTruthy (s : Option String) : Bool :=
  match s with
  | some s => s ≠ ""
  | none => false

/-- Substring search on `List Char`. -/
def listContainsSub (pat l : List Char) : Bool :=
  (List.range (l.length + 1)).any (fun i => pat.isPrefixOf (l.drop i))

/-- Embeds JS `String.prototype.includes`. -/
def strIncludes (s pat : String) : Bool :=
  listContainsSub pat.data s.data

/-- Embeds JS `String.prototype.toLowerCase` (per-character lowering). -/
def jsToLower (s : String) : String :=
  String.mk (s.data.map Char.toLower)

/-- Embeds JS `String.prototype.toUpperCase` (per-character raising). -/
def jsToUpper (s : String) : String :=
  String.mk (s.data.map Char.toUpper)

/-- Embeds `[...new Set(l)]`: deduplication keeping the first occurrence,
in insertion order. -/
def uniqKeepFirst (l : List String) : List String :=
  l.foldl (fun acc r => if r ∈ acc then acc else acc ++ [r]) []

/-- Embeds `uniqEmails(arr)`: trim each entry (`null` becomes `""`),
drop falsy (empty) results, deduplicate keeping first occurrence. -/
def uniqEmails (arr : List (Option String)) : List String :=
  uniqKeepFirst (((arr.map (fun s => jsTrim (s.getD ""))).filter (· ≠ "")))

/-! ## Role extraction and partitioning -/

/-- One element of `config.signatures` (only the fields the extractor reads). -/
structure ConfigSigItem where
  role : Option String
  id : Option String
deriving DecidableEq, Repr

/-- The per-element role computation inside `extractRequiredRolesFromConfig`:
`safeStr(s?.role, 100) || safeStr(s?.id, 100)` (the JS `||` falls through
exactly when `safeStr` returned `null`, since `safeStr` never returns `""`). -/
def effectiveRole (s : ConfigSigItem) : Option String :=
  (safeStr s.role 100).orElse (fun _ => safeStr s.id 100)

/-- Embeds `extractRequiredRolesFromConfig(config)`: collect the
per-element roles in order, then `[...new Set(roles)]`. -/
def extractRequiredRolesFromConfig (config : List ConfigSigItem) : List String :=
  uniqKeepFirst (config.filterMap effectiveRole)

/-- Result of `splitRolesBySigner`. -/
structure SplitRoles where
  customer : List String
  company : List String
deriving DecidableEq, Repr

/-- Embeds `splitRolesBySigner(requiredRoles)`: lowercase the role;
if it contains `"customer"` it goes to the customer list, else if it
contains `"company"` it goes to the company list, else it is dropped. -/
def splitRolesBySigner (requiredRoles : List String) : SplitRoles :=
  requiredRoles.foldl
    (fun acc r =>
      let low := jsToLower r
      if strIncludes low "customer" then { acc with customer := acc.customer ++ [r] }
      else if strIncludes low "company" then { acc with company := acc.company ++ [r] }
      else acc)
    ⟨[], []⟩

/-! ## Data model (contract row, signature rows) -/

/-- Contract lifecycle status; the `status` column only ever holds these
three values (`PENDING` at creation, the others written by the handlers). -/
inductive Status
  | PENDING
  | CUSTOMER_SIGNED
  | COMPLETED
deriving DecidableEq, Repr

/-- The columns of the `contracts` row the handlers read or write
(`id`/`document_id` are dropped: the model carries a single contract).
`config` is the parsed form of the JSON `config` column, restricted to
the `signatures` array the extractor reads.  `final_sent_at` is a
timestamp, `none` for SQL `NULL`. -/
structure ContractRow where
  config : List ConfigSigItem
  status : Status
  company_email : Option String
  customer_email : Option String
  final_sent_at : Option Nat
deriving DecidableEq, Repr

/-- One row of the `signatures` table. -/
structure SigRow where
  role : String
  signature_image : Option String
  signer_name : Option String
  signer_position : Option String
  signer_role : String
  signed_at : Nat
deriving DecidableEq, Repr

/-- Database state seen by one signing request: the contract row (or
`none` for "no such document") and that contract's signature rows. -/
structure DbState where
  contract : Option ContractRow
  sigs : List SigRow
deriving DecidableEq, Repr

/-! ## Signature store -/

/-- Embeds `upsertSignature`: `INSERT ... ON DUPLICATE KEY UPDATE` against
the unique key `(contract_id, role)`.  On conflict the image, name,
position and `signed_at` are overwritten; `signer_role` is kept (the SQL
update list does not include it).  Otherwise a fresh row is appended. -/
def upsertSignature (tbl : List SigRow) (role : String) (image : Option String)
    (name position : Option String) (signerRole : String) (now : Nat) : List SigRow :=
  if tbl.any (fun r => r.role = role) then
    tbl.map (fun r =>
      if r.role = role then
        { r with signature_image := image, signer_name := name,
                 signer_position := position, signed_at := now }
      else r)
  else
    tbl ++ [{ role := role, signature_image := image, signer_name := name,
              signer_position := position, signer_role := signerRole, signed_at := now }]

/-- Row order used by `getSignaturesByContractId`'s
`ORDER BY signer_role ASC, role ASC, signed_at ASC`. -/
def sigRowLe (a b : SigRow) : Bool :=
  match compare a.signer_role b.signer_role with
  | .lt => true
  | .gt => false
  | .eq =>
    match compare a.role b.role with
    | .lt => true
    | .gt => false
    | .eq => a.signed_at ≤ b.signed_at

/-- Embeds `getSignaturesByContractId`: all rows of the contract, sorted
by signer role, then role, then signing time. -/
def getSignaturesByContractId (tbl : List SigRow) : List SigRow :=
  tbl.insertionSort (fun a b => sigRowLe a b = true)

/-- The per-party maps built by `groupSignaturesToMap`
(`{ CUSTOMER: {role: row}, COMPANY: {role: row} }`), as association
lists in insertion order (JS object key order). -/
structure SigMap where
  CUSTOMER : List (String × SigRow)
  COMPANY : List (String × SigRow)
deriving DecidableEq, Repr

/-- JS `out[k] = v` on an object modelled as an association list:
replace the binding if the key exists, else append. -/
def insertAssoc (m : List (String × SigRow)) (k : String) (v : SigRow) :
    List (String × SigRow) :=
  if m.any (fun p => p.1 = k) then
    m.map (fun p => if p.1 = k then (k, v) else p)
  else m ++ [(k, v)]

/-- JS property read `m[k]`. -/
def lookupAssoc (m : List (String × SigRow)) (k : String) : Option SigRow :=
  (m.find? (fun p => p.1 = k)).map (fun p => p.2)

/-- Loop body of `groupSignaturesToMap`: bucket one row by the uppercased
`signer_role`; rows whose signer role is neither `CUSTOMER` nor `COMPANY`
are dropped. -/
def groupStep (out : SigMap) (r : SigRow) : SigMap :=
  let sr := jsToUpper r.signer_role
  if sr = "CUSTOMER" then { out with CUSTOMER := insertAssoc out.CUSTOMER r.role r }
  else if sr = "COMPANY" then { out with COMPANY := insertAssoc out.COMPANY r.role r }
  else out

/-- Embeds `groupSignaturesToMap(rows)`: the `for` loop over the rows,
starting from `{ CUSTOMER: {}, COMPANY: {} }`. -/
def groupSignaturesToMap (rows : List SigRow) : SigMap :=
  rows.foldl groupStep ⟨[], []⟩

/-- JS `signedMap?.[signerRole]`: the object only has the two fixed keys. -/
def mapForParty (m : SigMap) (party : String) : Option (List (String × SigRow)) :=
  if party = "CUSTOMER" then some m.CUSTOMER
  else if party = "COMPANY" then some m.COMPANY
  else none

/-- Embeds `assertSignedAll(requiredRoles, signedMap, signerRole)`: the
required roles whose entry `signedMap?.[signerRole]?.[r]?.signature_image`
is falsy (no row, `NULL` image, or empty-string image). -/
def assertSignedAll (requiredRoles : List String) (signedMap : SigMap)
    (signerRole : String) : List String :=
  requiredRoles.filter fun r =>
    match mapForParty signedMap signerRole with
    | some assoc =>
      match lookupAssoc assoc r with
      | some row => !(optTruthy row.signature_image)
      | none => true
    | none => true

/-! ## Request payload normalization -/

/-- One value of the request's `signatures` object: a bare data-URL
string, an object (with its image-field synonyms already coalesced the
way `v.image || v.signature_image || v.dataUrl || v.signature || null`
does), or anything else. -/
inductive SigPayloadVal
  | str (s : String)
  | obj (image : Option String) (name : Option String) (position : Option String)
  | other
deriving DecidableEq, Repr

/-- One normalized signature item (`{ role, image, name, position }`). -/
structure SigItem where
  role : String
  image : Option String
  name : Option String
  position : Option String
deriving DecidableEq, Repr

/-- Embeds `normalizeSignaturesPayload(signatures)`; the request object is
modelled as its `Object.keys` traversal, a list of key/value pairs. -/
def normalizeSignaturesPayload (signatures : List (String × SigPayloadVal)) :
    List SigItem :=
  signatures.map fun kv =>
    match kv.2 with
    | .str s => { role := kv.1, image := some s, name := none, position := none }
    | .obj image name position =>
      { role := kv.1, image := image, name := safeStr name 100,
        position := safeStr position 255 }
    | .other => { role := kv.1, image := none, name := none, position := none }

/-! ## Error and result model -/

/-- Every rejection the two handlers can produce, by branch.
`roleNotAllowed` carries what the handler actually reports back to the
client after round-tripping the packed `ROLE_NOT_ALLOWED:role:allowed`
message string: the decoded role and the decoded allowed list. -/
inductive SignErr
  | payloadEmpty
  | notFound
  | alreadyCompleted
  | customerAlreadySigned
  | notReadyForCompany
  | configErr (party : String)
  | invalidRole (role : String)
  | invalidImage (role : String)
  | roleNotAllowed (party : String) (reportedRole : String) (reportedAllowed : List String)
  | renderFailed
  | oneauthenFailed
  | mailFailed
deriving DecidableEq, Repr

/-- Successful handler outcomes. -/
inductive SignOk
  | customerMissingSome (signedCount requiredCount : Nat) (missing : List String)
  | customerCompleted (notified : Bool)
  | companyMissingSome (signedCount requiredCount : Nat) (missing : List String)
  | companyNoRecipients
  | companyAlreadySent
  | companyAlreadySentRace
  | companyEmailed (oneauthenSigned : Bool)
deriving DecidableEq, Repr

/-- HTTP status each rejection is sent with in the source. -/
def httpStatus : SignErr → Nat
  | .payloadEmpty => 400
  | .notFound => 404
  | .alreadyCompleted => 409
  | .customerAlreadySigned => 409
  | .notReadyForCompany => 400
  | .configErr _ => 500
  | .invalidRole _ => 400
  | .invalidImage _ => 400
  | .roleNotAllowed _ _ _ => 400
  | .renderFailed => 500
  | .oneauthenFailed => 500
  | .mailFailed => 500

/-- The `message` field of each rejection response in the source. -/
def errMessage : SignErr → String
  | .payloadEmpty => "signatures payload is empty"
  | .notFound => "Contract not found"
  | .alreadyCompleted => "Contract already completed"
  | .customerAlreadySigned => "Customer already signed"
  | .notReadyForCompany => "Contract is not ready for company sign"
  | .configErr party =>
    "Cannot determine required " ++ party ++ " roles from config.signatures."
  | .invalidRole role => "Invalid role: " ++ role
  | .invalidImage role => "Invalid signature image for role: " ++ role
  | .roleNotAllowed party role _ => "Role not allowed for " ++ party ++ ": " ++ role
  | .renderFailed => "Failed to render PDF"
  | .oneauthenFailed => "Failed to sign PDF with OneAuthen"
  | .mailFailed => "sign failed"

/-! ## The packed ROLE_NOT_ALLOWED message and its decoding

`assertRolesAllowed` throws `Error("ROLE_NOT_ALLOWED:" + r + ":" + a)` with
`a = Array.from(allowed).join(", ")`; the catch block then re-parses the
message with `msg.split(":")` and `parts[2].split(",").map(trim).filter(Boolean)`.
Split/join/trim are modelled at the `List Char` level. -/

/-- JS `s.split(sep)` for a single-character separator. -/
def splitChar (c : Char) : List Char → List (List Char)
  | [] => [[]]
  | x :: xs =>
    if x = c then [] :: splitChar c xs
    else
      match splitChar c xs with
      | [] => [[x]]
      | p :: ps => (x :: p) :: ps

/-- JS `parts.join(", ")` on character lists. -/
def joinCommaSpace : List (List Char) → List Char
  | [] => []
  | [p] => p
  | p :: ps => p ++ ',' :: ' ' :: joinCommaSpace ps

/-- The message string thrown by `assertRolesAllowed` for offending role
`r`: `"ROLE_NOT_ALLOWED:" + r + ":" + Array.from(new Set(allowed)).join(", ")`. -/
def roleNotAllowedMsg (r : String) (allowed : List String) : String :=
  String.mk ("ROLE_NOT_ALLOWED".data ++ ':' ::
    (r.data ++ ':' :: joinCommaSpace ((uniqKeepFirst allowed).map String.data)))

/-- The handler's catch block: split the packed message on `":"`, report
`parts[1]` as the offending role and
`(parts[2] || "").split(",").map(s => s.trim()).filter(Boolean)` as the
allowed list. -/
def decodeRoleNotAllowed (party : String) (msg : String) : SignErr :=
  let parts := splitChar ':' msg.data
  let reported := String.mk (parts.getD 1 [])
  let allowedPart := parts.getD 2 []
  let reportedAllowed :=
    ((splitChar ',' allowedPart).map (fun cs => String.mk (trimChars cs))).filter
      (fun s => s ≠ "")
  .roleNotAllowed party reported reportedAllowed

/-- Embeds `assertRolesAllowed(payloadRoles, allowedRoles)` together with
the catch block around it: the first payload role outside the allowed set
produces the decoded `roleNotAllowed` rejection. -/
def checkAllowed (party : String) (payloadRoles allowed : List String) :
    Option SignErr :=
  match payloadRoles.find? (fun r => !(allowed.contains r)) with
  | some r => some (decodeRoleNotAllowed party (roleNotAllowedMsg r allowed))
  | none => none

/-- The per-item validation loop shared verbatim by both handlers: the
first item with a bad role shape, or failing that a non-data-URL image,
yields the rejection. -/
def validateItems (items : List SigItem) : Option SignErr :=
  items.findSome? fun it =>
    if !(validateRoleBasic it.role) then some (.invalidRole it.role)
    else if !(isDataUrl it.image) then some (.invalidImage it.role)
    else none

/-- The upsert loop shared by both handlers. -/
def doUpserts (sigs : List SigRow) (items : List SigItem) (party : String)
    (now : Nat) : List SigRow :=
  items.foldl
    (fun tbl it => upsertSignature tbl it.role it.image it.name it.position party now)
    sigs

/-- Required customer roles derived from a contract's configuration. -/
def requiredCustomerOf (c : ContractRow) : List String :=
  (splitRolesBySigner (extractRequiredRolesFromConfig c.config)).customer

/-- Required company roles derived from a contract's configuration. -/
def requiredCompanyOf (c : ContractRow) : List String :=
  (splitRolesBySigner (extractRequiredRolesFromConfig c.config)).company

/-- Outcomes of the external collaborators (renderer, OneAuthen, mail);
the handler code only branches on their success. -/
structure ExtEnv where
  renderOk : Bool
  oneauthenEnabled : Bool
  oneauthenOk : Bool
  mailOk : Bool
  notifyOk : Bool
deriving DecidableEq, Repr

/-! ## Handlers

Each handler is a function from the database state (plus the normalized
request payload, the external-collaborator outcomes, and the current
timestamp) to a response together with the resulting database state.  A
rejection taken inside the transaction carries the *unchanged* state
(`conn.rollback()`); branches after `conn.commit()` carry the committed
state even when the response is a 500. -/

/-- Embeds `POST /api/contracts/:documentId/customer-sign`. -/
def customerSign (st : DbState) (payload : List (String × SigPayloadVal))
    (env : ExtEnv) (now : Nat) : Except SignErr SignOk × DbState :=
  let items := normalizeSignaturesPayload payload
  if items.isEmpty then (.error .payloadEmpty, st)
  else
    match st.contract with
    | none => (.error .notFound, st)
    | some c =>
      if c.status = .COMPLETED then (.error .alreadyCompleted, st)
      else if c.status = .CUSTOMER_SIGNED then (.error .customerAlreadySigned, st)
      else
        let required := requiredCustomerOf c
        if required.isEmpty then (.error (.configErr "CUSTOMER"), st)
        else
          match validateItems items with
          | some e => (.error e, st)
          | none =>
            match checkAllowed "CUSTOMER" (items.map (fun it => it.role)) required with
            | some e => (.error e, st)
            | none =>
              let sigs2 := doUpserts st.sigs items "CUSTOMER" now
              let m := groupSignaturesToMap sigs2
              let missing := assertSignedAll required m "CUSTOMER"
              if missing.isEmpty then
                let st2 : DbState := ⟨some { c with status := .CUSTOMER_SIGNED }, sigs2⟩
                if optTruthy c.company_email then
                  if env.notifyOk then (.ok (.customerCompleted true), st2)
                  else (.error .mailFailed, st2)
                else (.ok (.customerCompleted false), st2)
              else
                (.ok (.customerMissingSome m.CUSTOMER.length required.length missing),
                 ⟨some c, sigs2⟩)

/-- The company handler's tail after `conn.commit()` on the COMPLETED
transition: recipients, the `final_sent_at` pre-check against the row
read at the start of the transaction (`snapshot`), render, optional
OneAuthen signing, the final email, and the conditional
`UPDATE ... SET final_sent_at = CURRENT_TIMESTAMP ... AND final_sent_at IS NULL`
against the *current* database state (`st`), reporting already-sent when
that update affects zero rows. -/
def finalizeTail (snapshot : ContractRow) (st : DbState) (env : ExtEnv)
    (now : Nat) : Except SignErr SignOk × DbState :=
  let toList := uniqEmails [snapshot.company_email, snapshot.customer_email]
  if toList.isEmpty then (.ok .companyNoRecipients, st)
  else if snapshot.final_sent_at.isSome then (.ok .companyAlreadySent, st)
  else if !env.renderOk then (.error .renderFailed, st)
  else if env.oneauthenEnabled && !env.oneauthenOk then (.error .oneauthenFailed, st)
  else if !env.mailOk then (.error .mailFailed, st)
  else
    match st.contract with
    | some c2 =>
      match c2.final_sent_at with
      | none =>
        (.ok (.companyEmailed env.oneauthenEnabled),
         ⟨some { c2 with final_sent_at := some now }, st.sigs⟩)
      | some _ => (.ok .companyAlreadySentRace, st)
    | none => (.ok .companyAlreadySentRace, st)

/-- Embeds `POST /api/contracts/:documentId/company-sign`. -/
def companySign (st : DbState) (payload : List (String × SigPayloadVal))
    (env : ExtEnv) (now : Nat) : Except SignErr SignOk × DbState :=
  let items := normalizeSignaturesPayload payload
  if items.isEmpty then (.error .payloadEmpty, st)
  else
    match st.contract with
    | none => (.error .notFound, st)
    | some c =>
      if c.status ≠ .CUSTOMER_SIGNED then (.error .notReadyForCompany, st)
      else
        let required := requiredCompanyOf c
        if required.isEmpty then (.error (.configErr "COMPANY"), st)
        else
          match validateItems items with
          | some e => (.error e, st)
          | none =>
            match checkAllowed "COMPANY" (items.map (fun it => it.role)) required with
            | some e => (.error e, st)
            | none =>
              let sigs2 := doUpserts st.sigs items "COMPANY" now
              let m := groupSignaturesToMap sigs2
              let missing := assertSignedAll required m "COMPANY"
              if missing.isEmpty then
                let st2 : DbState := ⟨some { c with status := .COMPLETED }, sigs2⟩
                finalizeTail c st2 env now
              else
                (.ok (.companyMissingSome m.COMPANY.length required.length missing),
                 ⟨some c, sigs2⟩)

/-! ## Lemmas: deduplication -/

theorem uniqKeepFirst_go_spec (l : List String) :
    ∀ acc : List String,
      ∃ s : List String,
        l.foldl (fun acc r => if r ∈ acc then acc else acc ++ [r]) acc = acc ++ s ∧
        s.Sublist l ∧ (∀ x, x ∈ s → x ∈ l ∧ x ∉ acc) ∧
        (∀ x, x ∈ l → x ∈ acc ∨ x ∈ s) := by
  induction l with
  | nil => intro acc; exact ⟨[], by simp⟩
  | cons x xs ih =>
    intro acc
    by_cases hx : x ∈ acc
    · obtain ⟨s, hs, hsub, hmem, hcov⟩ := ih acc
      refine ⟨s, by simpa [hx] using hs, hsub.cons x, ?_, ?_⟩
      · intro y hy; exact ⟨List.mem_cons_of_mem x (hmem y hy).1, (hmem y hy).2⟩
      · intro y hy
        rcases List.mem_cons.mp hy with rfl | hy'
        · exact Or.inl hx
        · exact hcov y hy'
    · obtain ⟨s, hs, hsub, hmem, hcov⟩ := ih (acc ++ [x])
      refine ⟨x :: s, ?_, hsub.cons₂ x, ?_, ?_⟩
      · simpa [hx, List.append_assoc] using hs
      · intro y hy
        rcases List.mem_cons.mp hy with rfl | hy'
        · exact ⟨List.mem_cons_self _ _, hx⟩
        · refine ⟨List.mem_cons_of_mem x (hmem y hy').1, fun hya => ?_⟩
          exact (hmem y hy').2 (List.mem_append_left _ hya)
      · intro y hy
        rcases List.mem_cons.mp hy with rfl | hy'
        · exact Or.inr (List.mem_cons_self _ _)
        · rcases hcov y hy' with hacc | hin
          · rcases List.mem_append.mp hacc with h | h
            · exact Or.inl h
            · simp only [List.mem_singleton] at h
              exact Or.inr (h ▸ List.mem_cons_self _ _)
          · exact Or.inr (List.mem_cons_of_mem x hin)

theorem uniqKeepFirst_sublist (l : List String) : (uniqKeepFirst l).Sublist l := by
  obtain ⟨s, hs, hsub, -, -⟩ := uniqKeepFirst_go_spec l []
  simpa [uniqKeepFirst, hs] using hsub

theorem mem_uniqKeepFirst {l : List String} {x : String} :
    x ∈ uniqKeepFirst l ↔ x ∈ l := by
  obtain ⟨s, hs, hsub, hmem, hcov⟩ := uniqKeepFirst_go_spec l []
  constructor
  · intro h
    have : x ∈ s := by simpa [uniqKeepFirst, hs] using h
    exact (hmem x this).1
  · intro h
    rcases hcov x h with habs | hin
    · simp at habs
    · simpa [uniqKeepFirst, hs] using hin

theorem uniqKeepFirst_go_nodup (l : List String) :
    ∀ acc : List String, acc.Nodup →
      (l.foldl (fun acc r => if r ∈ acc then acc else acc ++ [r]) acc).Nodup := by
  induction l with
  | nil => intro acc h; simpa using h
  | cons x xs ih =>
    intro acc hacc
    by_cases hx : x ∈ acc
    · simpa [hx] using ih acc hacc
    · have : (acc ++ [x]).Nodup := by
        simpa [List.nodup_append, hx] using hacc
      simpa [hx] using ih (acc ++ [x]) this

theorem uniqKeepFirst_nodup (l : List String) : (uniqKeepFirst l).Nodup :=
  uniqKeepFirst_go_nodup l [] List.nodup_nil

theorem uniqKeepFirst_eq_self {l : List String} (h : l.Nodup) :
    uniqKeepFirst l = l := by
  unfold uniqKeepFirst
  suffices hgen : ∀ acc : List String, (∀ x ∈ l, x ∉ acc) →
      l.foldl (fun acc r => if r ∈ acc then acc else acc ++ [r]) acc = acc ++ l by
    simpa using hgen [] (by simp)
  induction l with
  | nil => intro acc _; simp
  | cons x xs ih =>
    intro acc hacc
    have hx : x ∉ acc := hacc x (List.mem_cons_self _ _)
    have hxs : xs.Nodup := (List.nodup_cons.mp h).2
    have := ih hxs (acc ++ [x]) (fun y hy => by
      intro hmem
      rcases List.mem_append.mp hmem with h1 | h1
      · exact hacc y (List.mem_cons_of_mem x hy) h1
      · simp only [List.mem_singleton] at h1
        exact (List.nodup_cons.mp h).1 (h1 ▸ hy))
    simp only [List.foldl_cons, if_neg hx, this, List.append_assoc, List.singleton_append]

/-! ## Lemmas: role partitioning -/

theorem splitRolesBySigner_go_spec (roles : List String) :
    ∀ acc : SplitRoles,
      roles.foldl
        (fun acc r =>
          let low := jsToLower r
          if strIncludes low "customer" then { acc with customer := acc.customer ++ [r] }
          else if strIncludes low "company" then { acc with company := acc.company ++ [r] }
          else acc)
        acc =
      ⟨acc.customer ++ roles.filter (fun r => strIncludes (jsToLower r) "customer"),
       acc.company ++ roles.filter
         (fun r => !strIncludes (jsToLower r) "customer" && strIncludes (jsToLower r) "company")⟩ := by
  induction roles with
  | nil => intro acc; simp
  | cons r rs ih =>
    intro acc
    by_cases h1 : strIncludes (jsToLower r) "customer"
    · simp only [List.foldl_cons, h1, if_true, ih, List.filter_cons, h1]
      simp [List.append_assoc]
    · by_cases h2 : strIncludes (jsToLower r) "company"
      · simp only [List.foldl_cons, h1, if_false, h2, if_true, ih, List.filter_cons]
        simp [h1, h2, List.append_assoc]
      · simp only [List.foldl_cons, h1, h2, if_false, ih, List.filter_cons]
        simp [h1, h2]

theorem splitRolesBySigner_customer (roles : List String) :
    (splitRolesBySigner roles).customer =
      roles.filter (fun r => strIncludes (jsToLower r) "customer") := by
  unfold splitRolesBySigner
  rw [splitRolesBySigner_go_spec]
  simp

theorem splitRolesBySigner_company (roles : List String) :
    (splitRolesBySigner roles).company =
      roles.filter
        (fun r => !strIncludes (jsToLower r) "customer" && strIncludes (jsToLower r) "company") := by
  unfold splitRolesBySigner
  rw [splitRolesBySigner_go_spec]
  simp

/-! ## Lemmas: the grouped signature map -/

/-- The association list the group map ends up holding for one party,
when the table satisfies the unique-key invariant. -/
def partyAssocList (party : String) (sigs : List SigRow) : List (String × SigRow) :=
  (sigs.filter (fun row => jsToUpper row.signer_role == party)).map
    (fun row => (row.role, row))

/-- There is a stored row for `r` under `party` whose image is truthy. -/
def storedTruthy (sigs : List SigRow) (party r : String) : Bool :=
  sigs.any
    (fun row => jsToUpper row.signer_role == party && row.role == r &&
      optTruthy row.signature_image)

theorem insertAssoc_of_not_mem {m : List (String × SigRow)} {k : String} {v : SigRow}
    (h : ∀ p ∈ m, p.1 ≠ k) : insertAssoc m k v = m ++ [(k, v)] := by
  unfold insertAssoc
  have : m.any (fun p => p.1 = k) = false := by
    simp only [List.any_eq_false, decide_eq_true_eq]
    exact h
  simp [this]

theorem partyAssocList_cons_pos {party : String} {row : SigRow} {rest : List SigRow}
    (h : jsToUpper row.signer_role = party) :
    partyAssocList party (row :: rest) = (row.role, row) :: partyAssocList party rest := by
  simp [partyAssocList, List.filter_cons, h]

theorem partyAssocList_cons_neg {party : String} {row : SigRow} {rest : List SigRow}
    (h : ¬ jsToUpper row.signer_role = party) :
    partyAssocList party (row :: rest) = partyAssocList party rest := by
  simp [partyAssocList, List.filter_cons, h]

theorem groupStep_cust {out : SigMap} {row : SigRow}
    (h : jsToUpper row.signer_role = "CUSTOMER") :
    groupStep out row = { out with CUSTOMER := insertAssoc out.CUSTOMER row.role row } := by
  simp [groupStep, h]

theorem groupStep_comp {out : SigMap} {row : SigRow}
    (h1 : ¬ jsToUpper row.signer_role = "CUSTOMER")
    (h2 : jsToUpper row.signer_role = "COMPANY") :
    groupStep out row = { out with COMPANY := insertAssoc out.COMPANY row.role row } := by
  simp [groupStep, h1, h2]

theorem groupStep_other {out : SigMap} {row : SigRow}
    (h1 : ¬ jsToUpper row.signer_role = "CUSTOMER")
    (h2 : ¬ jsToUpper row.signer_role = "COMPANY") :
    groupStep out row = out := by
  simp [groupStep, h1, h2]

theorem groupSignaturesToMap_go_spec (sigs : List SigRow) :
    ∀ acc : SigMap,
      (∀ row ∈ sigs, (∀ p ∈ acc.CUSTOMER, p.1 ≠ row.role) ∧
        (∀ p ∈ acc.COMPANY, p.1 ≠ row.role)) →
      ((sigs.map (fun row => row.role)).Nodup) →
      sigs.foldl groupStep acc =
      ⟨acc.CUSTOMER ++ partyAssocList "CUSTOMER" sigs,
       acc.COMPANY ++ partyAssocList "COMPANY" sigs⟩ := by
  induction sigs with
  | nil => intro acc _ _; simp [partyAssocList]
  | cons row rest ih =>
    intro acc hacc hnd
    have hndrest : ((rest.map (fun row => row.role)).Nodup) :=
      (List.nodup_cons.mp hnd).2
    have hrole : row.role ∉ rest.map (fun row => row.role) :=
      (List.nodup_cons.mp hnd).1
    have hacchead := hacc row (List.mem_cons_self _ _)
    have hne : ∀ r ∈ rest, ¬ row.role = r.role := by
      intro r hr hcontr
      apply hrole
      rw [hcontr]
      exact List.mem_map_of_mem (fun row => row.role) hr
    by_cases h1 : jsToUpper row.signer_role = "CUSTOMER"
    · have hins : insertAssoc acc.CUSTOMER row.role row =
          acc.CUSTOMER ++ [(row.role, row)] :=
        insertAssoc_of_not_mem hacchead.1
      have hrest := ih ⟨acc.CUSTOMER ++ [(row.role, row)], acc.COMPANY⟩
        (by
          intro r hr
          refine ⟨?_, (hacc r (List.mem_cons_of_mem _ hr)).2⟩
          intro p hp
          rcases List.mem_append.mp hp with h | h
          · exact (hacc r (List.mem_cons_of_mem _ hr)).1 p h
          · simp only [List.mem_singleton] at h
            subst h
            exact hne r hr)
        hndrest
      rw [List.foldl_cons, groupStep_cust h1, hins, hrest,
        partyAssocList_cons_pos h1, partyAssocList_cons_neg (by simp [h1])]
      simp [List.append_assoc]
    · by_cases h2 : jsToUpper row.signer_role = "COMPANY"
      · have hins : insertAssoc acc.COMPANY row.role row =
            acc.COMPANY ++ [(row.role, row)] :=
          insertAssoc_of_not_mem hacchead.2
        have hrest := ih ⟨acc.CUSTOMER, acc.COMPANY ++ [(row.role, row)]⟩
          (by
            intro r hr
            refine ⟨(hacc r (List.mem_cons_of_mem _ hr)).1, ?_⟩
            intro p hp
            rcases List.mem_append.mp hp with h | h
            · exact (hacc r (List.mem_cons_of_mem _ hr)).2 p h
            · simp only [List.mem_singleton] at h
              subst h
              exact hne r hr)
          hndrest
        rw [List.foldl_cons, groupStep_comp h1 h2, hins, hrest,
          partyAssocList_cons_pos h2, partyAssocList_cons_neg h1]
        simp [List.append_assoc]
      · have hrest := ih acc
          (fun r hr => hacc r (List.mem_cons_of_mem _ hr)) hndrest
        rw [List.foldl_cons, groupStep_other h1 h2, hrest,
          partyAssocList_cons_neg h1, partyAssocList_cons_neg h2]

theorem groupSignaturesToMap_eq {sigs : List SigRow}
    (hnd : (sigs.map (fun row => row.role)).Nodup) :
    groupSignaturesToMap sigs =
      ⟨partyAssocList "CUSTOMER" sigs, partyAssocList "COMPANY" sigs⟩ := by
  unfold groupSignaturesToMap
  have := groupSignaturesToMap_go_spec sigs ⟨[], []⟩ (by simp) hnd
  simpa using this

theorem lookupAssoc_cons_hit {p : String × SigRow} {m : List (String × SigRow)}
    {k : String} (h : p.1 = k) : lookupAssoc (p :: m) k = some p.2 := by
  simp [lookupAssoc, List.find?_cons_of_pos, h]

theorem lookupAssoc_cons_miss {p : String × SigRow} {m : List (String × SigRow)}
    {k : String} (h : ¬ p.1 = k) : lookupAssoc (p :: m) k = lookupAssoc m k := by
  simp [lookupAssoc, List.find?_cons_of_neg, h]

theorem storedTruthy_cons {row : SigRow} {rest : List SigRow} {party r : String} :
    storedTruthy (row :: rest) party r =
      ((jsToUpper row.signer_role == party && row.role == r &&
        optTruthy row.signature_image) || storedTruthy rest party r) := by
  simp [storedTruthy, List.any_cons]

theorem lookup_partyAssoc_truthy (party : String) {sigs : List SigRow} (r : String)
    (hnd : (sigs.map (fun row => row.role)).Nodup) :
    (match lookupAssoc (partyAssocList party sigs) r with
     | some row => optTruthy row.signature_image
     | none => false) = storedTruthy sigs party r := by
  induction sigs with
  | nil => simp [partyAssocList, lookupAssoc, storedTruthy]
  | cons row rest ih =>
    have hndrest : ((rest.map (fun row => row.role)).Nodup) :=
      (List.nodup_cons.mp hnd).2
    have hrole : row.role ∉ rest.map (fun row => row.role) :=
      (List.nodup_cons.mp hnd).1
    by_cases hp : jsToUpper row.signer_role = party
    · by_cases hr : row.role = r
      · have hnone : storedTruthy rest party r = false := by
          simp only [storedTruthy, List.any_eq_false]
          intro x hx hcontr
          simp only [Bool.and_eq_true, beq_iff_eq] at hcontr
          apply hrole
          rw [hr, ← hcontr.1.2]
          exact List.mem_map_of_mem (fun row => row.role) hx
        rw [partyAssocList_cons_pos hp, lookupAssoc_cons_hit hr, storedTruthy_cons]
        simp [hp, hr, hnone]
      · rw [partyAssocList_cons_pos hp, lookupAssoc_cons_miss hr, storedTruthy_cons,
          ih hndrest]
        simp [hr]
    · rw [partyAssocList_cons_neg hp, storedTruthy_cons, ih hndrest]
      simp [hp]

theorem assertSignedAll_eq_filter {required : List String} {sigs : List SigRow}
    {party : String} (hparty : party = "CUSTOMER" ∨ party = "COMPANY")
    (hnd : (sigs.map (fun row => row.role)).Nodup) :
    assertSignedAll required (groupSignaturesToMap sigs) party =
      required.filter (fun r => !storedTruthy sigs party r) := by
  unfold assertSignedAll
  apply List.filter_congr
  intro r _
  simp only [groupSignaturesToMap_eq hnd]
  rcases hparty with h | h <;> subst h
  · have hm : mapForParty
        ⟨partyAssocList "CUSTOMER" sigs, partyAssocList "COMPANY" sigs⟩ "CUSTOMER" =
        some (partyAssocList "CUSTOMER" sigs) := rfl
    rw [hm, ← lookup_partyAssoc_truthy "CUSTOMER" r hnd]
    rcases hl : lookupAssoc (partyAssocList "CUSTOMER" sigs) r with _ | row <;> simp [hl]
  · have hm : mapForParty
        ⟨partyAssocList "CUSTOMER" sigs, partyAssocList "COMPANY" sigs⟩ "COMPANY" =
        some (partyAssocList "COMPANY" sigs) := rfl
    rw [hm, ← lookup_partyAssoc_truthy "COMPANY" r hnd]
    rcases hl : lookupAssoc (partyAssocList "COMPANY" sigs) r with _ | row <;> simp [hl]

/-! ## Lemmas: upsert -/

theorem upsertSignature_roles (tbl : List SigRow) (ρ : String) (img nm ps : Option String)
    (sr : String) (now : Nat) :
    (upsertSignature tbl ρ img nm ps sr now).map (fun row => row.role) =
      tbl.map (fun row => row.role) ∨
    ((upsertSignature tbl ρ img nm ps sr now).map (fun row => row.role) =
      tbl.map (fun row => row.role) ++ [ρ] ∧ ρ ∉ tbl.map (fun row => row.role)) := by
  unfold upsertSignature
  by_cases h : tbl.any (fun r => r.role = ρ)
  · left
    simp only [h, if_true, List.map_map]
    apply List.map_congr_left
    intro row _
    by_cases hr : row.role = ρ <;> simp [hr]
  · right
    simp only [h, if_false]
    refine ⟨by simp, ?_⟩
    simp only [List.any_eq_true, decide_eq_true_eq] at h
    push_neg at h
    simp only [List.mem_map, not_exists]
    intro row
    intro hcontr
    exact h row hcontr.1 hcontr.2

theorem upsertSignature_nodup {tbl : List SigRow} {ρ : String} {img nm ps : Option String}
    {sr : String} {now : Nat} (hnd : (tbl.map (fun row => row.role)).Nodup) :
    ((upsertSignature tbl ρ img nm ps sr now).map (fun row => row.role)).Nodup := by
  rcases upsertSignature_roles tbl ρ img nm ps sr now with h | ⟨h, hmem⟩
  · rw [h]; exact hnd
  · rw [h]
    simp [List.nodup_append, hnd, hmem]

theorem doUpserts_nodup {sigs : List SigRow} {items : List SigItem} {party : String}
    {now : Nat} (hnd : (sigs.map (fun row => row.role)).Nodup) :
    ((doUpserts sigs items party now).map (fun row => row.role)).Nodup := by
  induction items generalizing sigs with
  | nil => simpa [doUpserts] using hnd
  | cons it rest ih =>
    simp only [doUpserts, List.foldl_cons]
    exact ih (upsertSignature_nodup hnd)

theorem any_congr_mem {α : Type} {l : List α} {p q : α → Bool}
    (h : ∀ a ∈ l, p a = q a) : l.any p = l.any q := by
  induction l with
  | nil => rfl
  | cons x xs ih =>
    simp only [List.any_cons, h x (List.mem_cons_self _ _),
      ih (fun a ha => h a (List.mem_cons_of_mem _ ha))]

theorem storedTruthy_upsert_ne {tbl : List SigRow} {ρ : String}
    {img nm ps : Option String} {sr : String} {now : Nat} {party r : String}
    (hne : ¬ r = ρ) :
    storedTruthy (upsertSignature tbl ρ img nm ps sr now) party r =
      storedTruthy tbl party r := by
  unfold upsertSignature
  by_cases h : tbl.any (fun r => r.role = ρ)
  · simp only [h, if_true, storedTruthy, List.any_map]
    apply any_congr_mem
    intro row _
    by_cases hr : row.role = ρ
    · have h2 : (ρ == r) = false := by
        simpa using fun hc => hne hc.symm
      simp [Function.comp, hr, h2]
    · simp [Function.comp, hr]
  · simp only [h, if_false, storedTruthy, List.any_append]
    have : ¬ ρ = r := fun hc => hne hc.symm
    simp [this]

theorem storedTruthy_upsert_self {tbl : List SigRow} {ρ : String}
    {img nm ps : Option String} {party : String} {now : Nat}
    (himg : optTruthy img = true)
    (hparty : jsToUpper party = party)
    (hcons : ∀ row ∈ tbl, row.role = ρ → jsToUpper row.signer_role = party) :
    storedTruthy (upsertSignature tbl ρ img nm ps party now) party ρ = true := by
  unfold upsertSignature
  by_cases h : tbl.any (fun r => r.role = ρ)
  · simp only [List.any_eq_true, decide_eq_true_eq] at h
    obtain ⟨row, hrow, hrole⟩ := h
    have : tbl.any (fun r => r.role = ρ) = true := by
      simp only [List.any_eq_true, decide_eq_true_eq]
      exact ⟨row, hrow, hrole⟩
    simp only [this, if_true, storedTruthy, List.any_eq_true]
    refine ⟨_, List.mem_map_of_mem _ hrow, ?_⟩
    simp [hrole, hcons row hrow hrole, himg]
  · simp only [h, if_false, storedTruthy, List.any_append, List.any_cons]
    simp [hparty, himg]

theorem rowsWithRole_upsert_ne {tbl : List SigRow} {ρ ρ' : String}
    {img nm ps : Option String} {sr : String} {now : Nat} {row : SigRow}
    (hne : ¬ ρ = ρ') (hrow : row ∈ tbl) (hrole : row.role = ρ) :
    row ∈ upsertSignature tbl ρ' img nm ps sr now := by
  unfold upsertSignature
  by_cases h : tbl.any (fun r => r.role = ρ')
  · simp only [h, if_true]
    have : row = (fun r => if r.role = ρ' then
        { r with signature_image := img, signer_name := nm,
                 signer_position := ps, signed_at := now } else r) row := by
      simp [hrole, hne]
    rw [this]
    exact List.mem_map_of_mem _ hrow
  · simp only [h, if_false]
    exact List.mem_append_left _ hrow

theorem exists_row_upsert_self (tbl : List SigRow) (ρ : String)
    (img nm ps : Option String) (sr : String) (now : Nat) :
    ∃ row ∈ upsertSignature tbl ρ img nm ps sr now,
      row.role = ρ ∧ row.signature_image = img ∧ row.signed_at = now ∧
      (row.signer_role = sr ∨ ∃ row0 ∈ tbl, row0.role = ρ ∧ row.signer_role = row0.signer_role) := by
  unfold upsertSignature
  by_cases h : tbl.any (fun r => r.role = ρ)
  · simp only [List.any_eq_true, decide_eq_true_eq] at h
    obtain ⟨row0, hrow0, hrole0⟩ := h
    have hany : tbl.any (fun r => r.role = ρ) = true := by
      simp only [List.any_eq_true, decide_eq_true_eq]
      exact ⟨row0, hrow0, hrole0⟩
    simp only [hany, if_true]
    refine ⟨_, List.mem_map_of_mem _ hrow0, ?_⟩
    rw [if_pos hrole0]
    exact ⟨hrole0, rfl, rfl, Or.inr ⟨row0, hrow0, hrole0, rfl⟩⟩
  · simp only [h, if_false]
    exact ⟨_, List.mem_append_right _ (List.mem_singleton_self _),
      rfl, rfl, rfl, Or.inl rfl⟩

theorem upsert_signerRole_inv (P : String → Prop) (tbl : List SigRow) (ρ : String)
    (img nm ps : Option String) (party : String) (now : Nat)
    (hcons : ∀ row ∈ tbl, P row.role → row.signer_role = party) :
    ∀ row ∈ upsertSignature tbl ρ img nm ps party now,
      P row.role → row.signer_role = party := by
  unfold upsertSignature
  by_cases h : tbl.any (fun r => r.role = ρ)
  · simp only [h, if_true]
    intro row hrow hP
    obtain ⟨row0, hrow0, heq⟩ := List.mem_map.mp hrow
    by_cases hr : row0.role = ρ
    · rw [if_pos hr] at heq
      subst heq
      exact hcons row0 hrow0 hP
    · rw [if_neg hr] at heq
      subst heq
      exact hcons row0 hrow0 hP
  · simp only [h, if_false]
    intro row hrow hP
    rcases List.mem_append.mp hrow with h1 | h1
    · exact hcons row h1 hP
    · simp only [List.mem_singleton] at h1
      subst h1
      rfl

theorem mem_doUpserts_of_not_mem {row : SigRow} {sigs : List SigRow}
    {items : List SigItem} {party : String} {now : Nat}
    (hrow : row ∈ sigs) (hnot : row.role ∉ items.map (fun it => it.role)) :
    row ∈ doUpserts sigs items party now := by
  induction items generalizing sigs with
  | nil => simpa [doUpserts] using hrow
  | cons it rest ih =>
    simp only [doUpserts, List.foldl_cons]
    have hne : ¬ row.role = it.role := by
      intro hc
      exact hnot (by simp [hc])
    exact ih
      (rowsWithRole_upsert_ne hne hrow rfl)
      (fun hc => hnot (List.mem_cons_of_mem _ hc))

theorem storedTruthy_doUpserts_not_mem {sigs : List SigRow} {items : List SigItem}
    {party party' : String} {now : Nat} {r : String}
    (hr : r ∉ items.map (fun it => it.role)) :
    storedTruthy (doUpserts sigs items party now) party' r =
      storedTruthy sigs party' r := by
  induction items generalizing sigs with
  | nil => simp [doUpserts]
  | cons it rest ih =>
    have hstep : doUpserts sigs (it :: rest) party now =
        doUpserts (upsertSignature sigs it.role it.image it.name it.position party now)
          rest party now := rfl
    have hne : ¬ r = it.role := by
      intro hc
      exact hr (by simp [hc])
    rw [hstep, ih (fun hc => hr (List.mem_cons_of_mem _ hc))]
    exact storedTruthy_upsert_ne hne

theorem storedTruthy_doUpserts_mem {sigs : List SigRow} {items : List SigItem}
    {party : String} {now : Nat} {r : String}
    (himg : ∀ it ∈ items, optTruthy it.image = true)
    (hparty : jsToUpper party = party)
    (hcons : ∀ row ∈ sigs, row.role ∈ items.map (fun it => it.role) →
      row.signer_role = party)
    (hr : r ∈ items.map (fun it => it.role)) :
    storedTruthy (doUpserts sigs items party now) party r = true := by
  induction items generalizing sigs with
  | nil => simp at hr
  | cons it rest ih =>
    have hstep : doUpserts sigs (it :: rest) party now =
        doUpserts (upsertSignature sigs it.role it.image it.name it.position party now)
          rest party now := rfl
    rw [hstep]
    have hcons1 : ∀ row ∈ upsertSignature sigs it.role it.image it.name it.position party now,
        row.role ∈ rest.map (fun it => it.role) → row.signer_role = party := by
      have := upsert_signerRole_inv
        (fun ρ => ρ ∈ (it :: rest).map (fun it => it.role))
        sigs it.role it.image it.name it.position party now hcons
      intro row hrow hP
      exact this row hrow (List.mem_cons_of_mem _ hP)
    by_cases hmem : r ∈ rest.map (fun it => it.role)
    · exact ih (fun a ha => himg a (List.mem_cons_of_mem _ ha)) hcons1 hmem
    · have hhead : r = it.role := by
        rcases List.mem_map.mp hr with ⟨a, ha, hae⟩
        rcases List.mem_cons.mp ha with rfl | ha'
        · exact hae.symm
        · exact absurd (List.mem_map.mpr ⟨a, ha', hae⟩) hmem
      subst hhead
      rw [storedTruthy_doUpserts_not_mem hmem]
      apply storedTruthy_upsert_self (himg it (List.mem_cons_self _ _)) hparty
      intro row hrow hrole
      rw [hcons row hrow (by simp [hrole]), hparty]

theorem exists_row_doUpserts {sigs : List SigRow} {items : List SigItem}
    {party : String} {now : Nat}
    (hnd : (items.map (fun it => it.role)).Nodup)
    (hcons : ∀ row ∈ sigs, row.role ∈ items.map (fun it => it.role) →
      row.signer_role = party) :
    ∀ it ∈ items, ∃ row ∈ doUpserts sigs items party now,
      row.role = it.role ∧ row.signature_image = it.image ∧
      row.signer_role = party := by
  induction items generalizing sigs with
  | nil => intro it hit; simp at hit
  | cons it0 rest ih =>
    have hndrest : (rest.map (fun it => it.role)).Nodup := (List.nodup_cons.mp hnd).2
    have hnotrest : it0.role ∉ rest.map (fun it => it.role) := (List.nodup_cons.mp hnd).1
    have hcons1 : ∀ row ∈ upsertSignature sigs it0.role it0.image it0.name it0.position party now,
        row.role ∈ rest.map (fun it => it.role) → row.signer_role = party := by
      have := upsert_signerRole_inv
        (fun ρ => ρ ∈ (it0 :: rest).map (fun it => it.role))
        sigs it0.role it0.image it0.name it0.position party now hcons
      intro row hrow hP
      exact this row hrow (List.mem_cons_of_mem _ hP)
    intro it hit
    rcases List.mem_cons.mp hit with rfl | hit'
    · obtain ⟨row, hrow, hrole, himg, -, hsr⟩ :=
        exists_row_upsert_self sigs it.role it.image it.name it.position party now
      have hsrole : row.signer_role = party := by
        rcases hsr with h | ⟨row0, hrow0, hrole0, heq⟩
        · exact h
        · rw [heq]
          exact hcons row0 hrow0 (by simp [hrole0])
      refine ⟨row, ?_, hrole, himg, hsrole⟩
      have hstep : doUpserts sigs (it :: rest) party now =
          doUpserts (upsertSignature sigs it.role it.image it.name it.position party now)
            rest party now := rfl
      rw [hstep]
      exact mem_doUpserts_of_not_mem hrow (by rw [hrole]; exact hnotrest)
    · have hstep : doUpserts sigs (it0 :: rest) party now =
          doUpserts (upsertSignature sigs it0.role it0.image it0.name it0.position party now)
            rest party now := rfl
      rw [hstep]
      exact ih hndrest hcons1 it hit'

/-! ## Lemmas: split / join / trim round trip -/

theorem splitChar_ne_nil (c : Char) (l : List Char) : splitChar c l ≠ [] := by
  induction l with
  | nil => simp [splitChar]
  | cons x xs ih =>
    by_cases h : x = c
    · simp [splitChar, h]
    · simp only [splitChar, h, if_false]
      rcases hs : splitChar c xs with _ | ⟨p, ps⟩
      · simp
      · simp

theorem splitChar_not_mem {c : Char} {l : List Char} (h : c ∉ l) :
    splitChar c l = [l] := by
  induction l with
  | nil => rfl
  | cons x xs ih =>
    have hx : ¬ x = c := fun hc => h (hc ▸ List.mem_cons_self _ _)
    have hxs : c ∉ xs := fun hc => h (List.mem_cons_of_mem _ hc)
    simp only [splitChar, hx, if_false, ih hxs]

theorem splitChar_cons_of_ne {c x : Char} {xs : List Char} (h : ¬ x = c)
    {p : List Char} {ps : List (List Char)} (hs : splitChar c xs = p :: ps) :
    splitChar c (x :: xs) = (x :: p) :: ps := by
  simp only [splitChar, h, if_false, hs]

theorem splitChar_append {c : Char} {l₁ l₂ : List Char} (h : c ∉ l₁) :
    splitChar c (l₁ ++ c :: l₂) = l₁ :: splitChar c l₂ := by
  induction l₁ with
  | nil => simp [splitChar]
  | cons x xs ih =>
    have hx : ¬ x = c := fun hc => h (hc ▸ List.mem_cons_self _ _)
    have hxs : c ∉ xs := fun hc => h (List.mem_cons_of_mem _ hc)
    rw [List.cons_append, splitChar_cons_of_ne hx (ih hxs)]

theorem not_mem_joinCommaSpace {c : Char} {parts : List (List Char)}
    (hc1 : ¬ c = ',') (hc2 : ¬ c = ' ') (h : ∀ p ∈ parts, c ∉ p) :
    c ∉ joinCommaSpace parts := by
  induction parts with
  | nil => simp [joinCommaSpace]
  | cons p ps ih =>
    rcases ps with _ | ⟨q, qs⟩
    · simpa [joinCommaSpace] using h p (List.mem_cons_self _ _)
    · simp only [joinCommaSpace, List.mem_append, List.mem_cons]
      push_neg
      exact ⟨h p (List.mem_cons_self _ _), hc1, hc2,
        ih (fun r hr => h r (List.mem_cons_of_mem _ hr))⟩

theorem splitChar_comma_join {p : List Char} {ps : List (List Char)}
    (h : ∀ q ∈ p :: ps, ',' ∉ q) :
    splitChar ',' (joinCommaSpace (p :: ps)) =
      p :: ps.map (fun q => ' ' :: q) := by
  induction ps generalizing p with
  | nil =>
    simp only [joinCommaSpace, List.map_nil]
    exact splitChar_not_mem (h p (List.mem_cons_self _ _))
  | cons q qs ih =>
    have hj : joinCommaSpace (p :: q :: qs) =
        p ++ ',' :: (' ' :: joinCommaSpace (q :: qs)) := rfl
    rw [hj, splitChar_append (h p (List.mem_cons_self _ _))]
    have hqs : splitChar ',' (joinCommaSpace (q :: qs)) =
        q :: qs.map (fun x => ' ' :: x) :=
      ih (fun r hr => h r (List.mem_cons_of_mem _ hr))
    rw [splitChar_cons_of_ne (by decide) hqs]
    simp

theorem trimChars_cons_ws {x : Char} {l : List Char} (h : isWsChar x = true) :
    trimChars (x :: l) = trimChars l := by
  simp [trimChars, List.dropWhile_cons, h]

/-! ## Lemmas: decoding the packed ROLE_NOT_ALLOWED message -/

/-- A role string is "clean" when the packed-message round trip cannot
mangle it: no `':'` or `','`, already trimmed, non-empty. -/
abbrev cleanRole (a : String) : Prop :=
  ':' ∉ a.data ∧ ',' ∉ a.data ∧ trimChars a.data = a.data ∧ a ≠ ""

theorem decode_clean {party r : String} {allowed : List String}
    (hr : ':' ∉ r.data)
    (ha : ∀ a ∈ allowed, cleanRole a)
    (hnd : allowed.Nodup) (hne : allowed ≠ []) :
    decodeRoleNotAllowed party (roleNotAllowedMsg r allowed) =
      .roleNotAllowed party r allowed := by
  have huniq : uniqKeepFirst allowed = allowed := uniqKeepFirst_eq_self hnd
  rcases allowed with _ | ⟨a0, arest⟩
  · exact absurd rfl hne
  have hcf : ∀ q ∈ (a0 :: arest).map String.data, ',' ∉ q := by
    intro q hq
    obtain ⟨a, haa, rfl⟩ := List.mem_map.mp hq
    exact (ha a haa).2.1
  have hjcolon : ':' ∉ joinCommaSpace ((a0 :: arest).map String.data) := by
    apply not_mem_joinCommaSpace (by decide) (by decide)
    intro q hq
    obtain ⟨a, haa, rfl⟩ := List.mem_map.mp hq
    exact (ha a haa).1
  have hmsg : (roleNotAllowedMsg r (a0 :: arest)).data =
      "ROLE_NOT_ALLOWED".data ++ ':' ::
        (r.data ++ ':' :: joinCommaSpace ((a0 :: arest).map String.data)) := by
    simp [roleNotAllowedMsg, huniq]
  have hsplit : splitChar ':' (roleNotAllowedMsg r (a0 :: arest)).data =
      ["ROLE_NOT_ALLOWED".data, r.data,
        joinCommaSpace ((a0 :: arest).map String.data)] := by
    rw [hmsg, splitChar_append (by decide), splitChar_append hr,
      splitChar_not_mem hjcolon]
  unfold decodeRoleNotAllowed
  rw [hsplit]
  have hjoin : splitChar ',' (joinCommaSpace ((a0 :: arest).map String.data)) =
      a0.data :: (arest.map String.data).map (fun q => ' ' :: q) := by
    rw [show (a0 :: arest).map String.data = a0.data :: arest.map String.data from rfl]
    exact splitChar_comma_join (by
      intro q hq
      exact hcf q (by simpa using hq))
  simp only [List.getD_cons_succ, List.getD_cons_zero, hjoin]
  have h0 : String.mk (trimChars a0.data) = a0 := by
    rw [(ha a0 (List.mem_cons_self _ _)).2.2.1]
  have htail : ∀ a ∈ arest, String.mk (trimChars (' ' :: a.data)) = a := by
    intro a haa
    rw [trimChars_cons_ws (by decide), (ha a (List.mem_cons_of_mem _ haa)).2.2.1]
  have hpieces :
      ((a0.data :: (arest.map String.data).map (fun q => ' ' :: q)).map
        (fun cs => String.mk (trimChars cs))) = a0 :: arest := by
    simp only [List.map_cons, List.map_map, h0]
    congr 1
    have hfun : ∀ a ∈ arest,
        ((fun cs => String.mk (trimChars cs)) ∘ (fun q => ' ' :: q) ∘ String.data) a =
          id a := by
      intro a haa
      simp only [Function.comp, id]
      exact htail a haa
    rw [List.map_congr_left hfun, List.map_id]
  rw [hpieces]
  have hfilter : (a0 :: arest).filter (fun s => s ≠ "") = a0 :: arest := by
    apply List.filter_eq_self.mpr
    intro a haa
    simpa using (ha a haa).2.2.2
  rw [hfilter]

/-! ## Lemmas: validation stages -/

theorem isDataUrl_truthy {s : Option String} (h : isDataUrl s = true) :
    optTruthy s = true := by
  rcases s with _ | str
  · simp [isDataUrl] at h
  · by_cases he : str = ""
    · subst he
      exact absurd h (by decide)
    · simp [optTruthy, he]

theorem validateItems_none_iff {items : List SigItem} :
    validateItems items = none ↔
      ∀ it ∈ items, validateRoleBasic it.role = true ∧ isDataUrl it.image = true := by
  unfold validateItems
  rw [List.findSome?_eq_none_iff]
  constructor
  · intro h it hit
    have := h it hit
    by_cases h1 : validateRoleBasic it.role
    · by_cases h2 : isDataUrl it.image
      · exact ⟨h1, h2⟩
      · simp [h1, h2] at this
    · simp [h1] at this
  · intro h it hit
    simp [(h it hit).1, (h it hit).2]

theorem checkAllowed_none_iff {party : String} {roles allowed : List String} :
    checkAllowed party roles allowed = none ↔ ∀ r ∈ roles, r ∈ allowed := by
  unfold checkAllowed
  constructor
  · intro h r hr
    rcases hfind : roles.find? (fun r => !(allowed.contains r)) with _ | r0
    · rw [List.find?_eq_none] at hfind
      have := hfind r hr
      simpa using this
    · rw [hfind] at h
      simp at h
  · intro h
    have : roles.find? (fun r => !(allowed.contains r)) = none := by
      rw [List.find?_eq_none]
      intro r hr
      simpa using h r hr
    rw [this]

theorem checkAllowed_some_of (party : String) {roles allowed : List String}
    {bad : String} (hbad : bad ∈ roles) (hnotin : bad ∉ allowed) :
    ∃ r0, r0 ∈ roles ∧ r0 ∉ allowed ∧
      checkAllowed party roles allowed =
        some (decodeRoleNotAllowed party (roleNotAllowedMsg r0 allowed)) := by
  have hsome : (roles.find? (fun r => !(allowed.contains r))).isSome = true := by
    rw [List.find?_isSome]
    exact ⟨bad, hbad, by simpa using hnotin⟩
  rcases hfind : roles.find? (fun r => !(allowed.contains r)) with _ | r0
  · rw [hfind] at hsome; simp at hsome
  · refine ⟨r0, List.mem_of_find?_eq_some hfind, ?_, ?_⟩
    · have := List.find?_some hfind
      simpa using this
    · unfold checkAllowed
      rw [hfind]

/-! ## Lemmas: role extraction -/

theorem mem_extract_iff {config : List ConfigSigItem} {r : String} :
    r ∈ extractRequiredRolesFromConfig config ↔
      ∃ s ∈ config, effectiveRole s = some r := by
  unfold extractRequiredRolesFromConfig
  rw [mem_uniqKeepFirst, List.mem_filterMap]

theorem extract_nodup (config : List ConfigSigItem) :
    (extractRequiredRolesFromConfig config).Nodup :=
  uniqKeepFirst_nodup _

theorem safeStr_some_length {s : Option String} {max : Nat} {v : String}
    (h : safeStr s max = some v) : v.length ≤ max := by
  rcases s with _ | str
  · simp [safeStr] at h
  · simp only [safeStr] at h
    by_cases he : jsTrim str = ""
    · simp [he] at h
    · by_cases hlen : (jsTrim str).length > max
      · rw [if_neg he, if_pos hlen] at h
        cases h
        simp only [jsTrim]
        calc ((String.mk ((jsTrim str).data.take max)).length)
            = ((jsTrim str).data.take max).length := rfl
          _ ≤ max := by simp
      · rw [if_neg he, if_neg hlen] at h
        cases h
        omega

theorem extract_length_le {config : List ConfigSigItem} {r : String}
    (h : r ∈ extractRequiredRolesFromConfig config) : r.length ≤ 100 := by
  obtain ⟨s, -, hs⟩ := mem_extract_iff.mp h
  unfold effectiveRole at hs
  rcases h1 : safeStr s.role 100 with _ | v
  · rw [h1] at hs
    simp only [Option.orElse] at hs
    exact safeStr_some_length hs
  · rw [h1] at hs
    simp only [Option.orElse] at hs
    cases hs
    exact safeStr_some_length h1

theorem requiredCustomerOf_subset {c : ContractRow} {r : String}
    (h : r ∈ requiredCustomerOf c) :
    r ∈ extractRequiredRolesFromConfig c.config := by
  unfold requiredCustomerOf at h
  rw [splitRolesBySigner_customer] at h
  exact List.mem_of_mem_filter h

theorem requiredCompanyOf_subset {c : ContractRow} {r : String}
    (h : r ∈ requiredCompanyOf c) :
    r ∈ extractRequiredRolesFromConfig c.config := by
  unfold requiredCompanyOf at h
  rw [splitRolesBySigner_company] at h
  exact List.mem_of_mem_filter h

theorem requiredCustomerOf_nodup (c : ContractRow) :
    (requiredCustomerOf c).Nodup := by
  unfold requiredCustomerOf
  rw [splitRolesBySigner_customer]
  exact (extract_nodup c.config).filter _

theorem requiredCompanyOf_nodup (c : ContractRow) :
    (requiredCompanyOf c).Nodup := by
  unfold requiredCompanyOf
  rw [splitRolesBySigner_company]
  exact (extract_nodup c.config).filter _

/-! ## Lemmas: handler post-states -/

theorem status_pending_of_not {cc : ContractRow}
    (h1 : ¬ cc.status = .COMPLETED) (h2 : ¬ cc.status = .CUSTOMER_SIGNED) :
    cc.status = .PENDING := by
  cases h : cc.status <;> simp_all

theorem customerSign_post (st : DbState) (payload : List (String × SigPayloadVal))
    (env : ExtEnv) (now : Nat) :
    (customerSign st payload env now).2.contract = st.contract ∨
    (∃ c, st.contract = some c ∧ c.status = .PENDING ∧
      (customerSign st payload env now).2.contract =
        some { c with status := .CUSTOMER_SIGNED }) := by
  simp only [customerSign]
  repeat' split
  all_goals first
    | (left; rfl)
    | (left; exact Eq.symm (by assumption))
    | (right;
       exact ⟨_, by assumption,
         status_pending_of_not (by assumption) (by assumption), rfl⟩)

theorem finalizeTail_post (snap : ContractRow) (st : DbState) (env : ExtEnv)
    (now : Nat) :
    (finalizeTail snap st env now).2 = st ∨
    (∃ c2, st.contract = some c2 ∧ c2.final_sent_at = none ∧
      (finalizeTail snap st env now).2 =
        ⟨some { c2 with final_sent_at := some now }, st.sigs⟩) := by
  simp only [finalizeTail]
  repeat' split
  all_goals first
    | (left; rfl)
    | (right; exact ⟨_, by assumption, by assumption, rfl⟩)

theorem finalizeTail_contract_cases (snap : ContractRow) (c : ContractRow)
    (sigs2 : List SigRow) (env : ExtEnv) (now : Nat) :
    (finalizeTail snap ⟨some c, sigs2⟩ env now).2.contract = some c ∨
    (c.final_sent_at = none ∧
      (finalizeTail snap ⟨some c, sigs2⟩ env now).2.contract =
        some { c with final_sent_at := some now }) := by
  rcases finalizeTail_post snap ⟨some c, sigs2⟩ env now with h | ⟨c2, hc2, hfin, h⟩
  · left; rw [h]
  · have : c2 = c := by
      simpa using hc2.symm
    subst this
    right
    rw [h]
    exact ⟨hfin, rfl⟩

theorem companySign_post (st : DbState) (payload : List (String × SigPayloadVal))
    (env : ExtEnv) (now : Nat) :
    (companySign st payload env now).2.contract = st.contract ∨
    (∃ c, st.contract = some c ∧ c.status = .CUSTOMER_SIGNED ∧
      ((companySign st payload env now).2.contract =
          some { c with status := .COMPLETED } ∨
       (c.final_sent_at = none ∧
        (companySign st payload env now).2.contract =
          some { c with status := .COMPLETED, final_sent_at := some now }))) := by
  simp only [companySign]
  repeat' split
  all_goals first
    | (left; rfl)
    | (left; exact Eq.symm (by assumption))
    | (right;
       exact ⟨_, by assumption, not_not.mp (by assumption),
         finalizeTail_contract_cases _ _ _ env now⟩)

/-! ## Claim theorems -/

/-- C7: when the submitting party's derived required-role set is empty, a
signing call that passed the earlier guards fails with the server-side
`ConfigError` (HTTP 500, distinct from the 400 client input errors) and
the database state is unchanged — no signature is written. -/
theorem C7_configError_before_writes (st : DbState)
    (payload : List (String × SigPayloadVal)) (env : ExtEnv) (now : Nat)
    (c : ContractRow) (hsome : st.contract = some c)
    (hitems : normalizeSignaturesPayload payload ≠ []) :
    (c.status = .PENDING → requiredCustomerOf c = [] →
      customerSign st payload env now = (.error (.configErr "CUSTOMER"), st)) ∧
    (c.status = .CUSTOMER_SIGNED → requiredCompanyOf c = [] →
      companySign st payload env now = (.error (.configErr "COMPANY"), st)) ∧
    httpStatus (.configErr "CUSTOMER") = 500 ∧
    httpStatus (.configErr "COMPANY") = 500 ∧
    (∀ r, httpStatus (.invalidRole r) = 400 ∧ httpStatus (.invalidImage r) = 400) ∧
    (∀ party r allowed, httpStatus (.roleNotAllowed party r allowed) = 400) := by
  refine ⟨?_, ?_, rfl, rfl, fun r => ⟨rfl, rfl⟩, fun party r allowed => rfl⟩
  · intro hst hreq
    simp [customerSign, hsome, hst, hreq, List.isEmpty_iff, hitems]
  · intro hst hreq
    simp [companySign, hsome, hst, hreq, List.isEmpty_iff, hitems]

/-- C4 counterexample: the claim asks for a distinct `InvalidState`
message per violated guard ("customer not yet done" vs "company already
acted"), but a company-sign call rejected at `PENDING` and one rejected
at `COMPLETED` produce the identical error and message
("Contract is not ready for company sign"). -/
theorem C4_counterexample :
    (companySign
        ⟨some ⟨[⟨some "customer_a", none⟩], .PENDING, none, none, none⟩, []⟩
        [("company_w", .str "data:image/png;base64,Q")] ⟨true, false, true, true, true⟩ 0).1 =
      .error .notReadyForCompany ∧
    (companySign
        ⟨some ⟨[⟨some "customer_a", none⟩], .COMPLETED, none, none, none⟩, []⟩
        [("company_w", .str "data:image/png;base64,Q")] ⟨true, false, true, true, true⟩ 0).1 =
      .error .notReadyForCompany ∧
    Status.PENDING ≠ Status.COMPLETED := by
  refine ⟨rfl, rfl, by decide⟩

/-- C4 (amended): a company-sign call on a contract whose status is not
`CUSTOMER_SIGNED`, and a customer-sign call on a contract whose status is
not `PENDING`, are rejected without mutating the contract or any
signature row; the customer handler distinguishes "already completed"
from "customer already signed" with distinct messages, while the company
handler rejects every wrong-status call with a single "not ready"
message; the three rejection messages are pairwise distinct. -/
theorem C4_state_guards (st : DbState)
    (payload : List (String × SigPayloadVal)) (env : ExtEnv) (now : Nat)
    (c : ContractRow) (hsome : st.contract = some c)
    (hitems : normalizeSignaturesPayload payload ≠ []) :
    (c.status ≠ .PENDING →
      customerSign st payload env now =
        (.error (if c.status = .COMPLETED then .alreadyCompleted
                 else .customerAlreadySigned), st)) ∧
    (c.status ≠ .CUSTOMER_SIGNED →
      companySign st payload env now = (.error .notReadyForCompany, st)) ∧
    errMessage .alreadyCompleted ≠ errMessage .customerAlreadySigned ∧
    errMessage .alreadyCompleted ≠ errMessage .notReadyForCompany ∧
    errMessage .customerAlreadySigned ≠ errMessage .notReadyForCompany := by
  refine ⟨?_, ?_, by decide, by decide, by decide⟩
  · intro hst
    rcases h : c.status with _ | _ | _
    · exact absurd h hst
    · simp [customerSign, hsome, h, List.isEmpty_iff, hitems]
    · simp [customerSign, hsome, h, List.isEmpty_iff, hitems]
  · intro hst
    simp [companySign, hsome, hst, List.isEmpty_iff, hitems]

theorem countP_congr_mem {α : Type} {l : List α} {p q : α → Bool}
    (h : ∀ a ∈ l, p a = q a) : l.countP p = l.countP q := by
  induction l with
  | nil => rfl
  | cons x xs ih =>
    rw [List.countP_cons, List.countP_cons, h x (List.mem_cons_self _ _),
      ih (fun a ha => h a (List.mem_cons_of_mem _ ha))]

theorem all_good_of_checks {items : List SigItem} {party : String}
    {required : List String} (hv : validateItems items = none)
    (hc : checkAllowed party (items.map (fun it => it.role)) required = none) :
    ∀ it ∈ items, (validateRoleBasic it.role = true ∧ isDataUrl it.image = true) ∧
      it.role ∈ required := by
  intro it hit
  exact ⟨validateItems_none_iff.mp hv it hit,
    checkAllowed_none_iff.mp hc _ (List.mem_map_of_mem _ hit)⟩

/-- C6: a signing call with any invalid submitted item (bad role shape,
unrecognized image payload, or a role outside the party's required set)
is rejected and leaves the database state exactly as it was — every item
is validated before any upsert, so no partial signature write survives. -/
theorem C6_validation_rolls_back (st : DbState)
    (payload : List (String × SigPayloadVal)) (env : ExtEnv) (now : Nat)
    (c : ContractRow) (hsome : st.contract = some c) :
    ((∃ it ∈ normalizeSignaturesPayload payload,
        ¬(validateRoleBasic it.role = true ∧ isDataUrl it.image = true) ∨
        it.role ∉ requiredCustomerOf c) →
      ∃ e, customerSign st payload env now = (.error e, st)) ∧
    ((∃ it ∈ normalizeSignaturesPayload payload,
        ¬(validateRoleBasic it.role = true ∧ isDataUrl it.image = true) ∨
        it.role ∉ requiredCompanyOf c) →
      ∃ e, companySign st payload env now = (.error e, st)) := by
  constructor
  · intro hbad
    simp only [customerSign, hsome]
    repeat' split
    all_goals try exact ⟨_, rfl⟩
    all_goals
      (exfalso
       obtain ⟨it, hit, hb⟩ := hbad
       have hg := all_good_of_checks (by assumption) (by assumption) it hit
       rcases hb with hb | hb
       · exact hb hg.1
       · exact hb hg.2)
  · intro hbad
    simp only [companySign, hsome]
    repeat' split
    all_goals try exact ⟨_, rfl⟩
    all_goals
      (exfalso
       obtain ⟨it, hit, hb⟩ := hbad
       have hg := all_good_of_checks (by assumption) (by assumption) it hit
       rcases hb with hb | hb
       · exact hb hg.1
       · exact hb hg.2)

/-- C8: after upserting a signature for role `R` with image `X` into a
table satisfying the unique-key invariant, listing the contract's
signatures yields exactly one record for `R`, and that record carries
image `X` and the refreshed timestamp — also when `R` had previously been
signed with a different image. -/
theorem C8_upsert_roundtrip (tbl : List SigRow) (ρ X : String)
    (nm ps : Option String) (sr : String) (now : Nat)
    (hnd : (tbl.map (fun row => row.role)).Nodup) :
    ((getSignaturesByContractId (upsertSignature tbl ρ (some X) nm ps sr now)).countP
        (fun row => row.role == ρ)) = 1 ∧
    (∀ row ∈ getSignaturesByContractId (upsertSignature tbl ρ (some X) nm ps sr now),
      row.role = ρ → row.signature_image = some X ∧ row.signed_at = now) := by
  have hperm := List.perm_insertionSort
    (fun a b => sigRowLe a b = true) (upsertSignature tbl ρ (some X) nm ps sr now)
  unfold getSignaturesByContractId
  constructor
  · rw [List.Perm.countP_eq _ hperm]
    unfold upsertSignature
    by_cases h : tbl.any (fun r => r.role = ρ)
    · simp only [h, if_true, List.countP_map]
      have hcnt : List.countP
          ((fun row => row.role == ρ) ∘ (fun r =>
            if r.role = ρ then
              { r with signature_image := some X, signer_name := nm,
                       signer_position := ps, signed_at := now }
            else r)) tbl =
          List.countP (fun row => row.role == ρ) tbl := by
        apply countP_congr_mem
        intro row _
        by_cases hr : row.role = ρ
        · rw [Function.comp_apply, if_pos hr]
        · rw [Function.comp_apply, if_neg hr]
      rw [hcnt]
      have h1 : List.countP (fun row => row.role == ρ) tbl =
          List.count ρ (tbl.map (fun row => row.role)) := by
        rw [List.count_eq_countP, List.countP_map]
        apply countP_congr_mem
        intro row _
        rfl
      rw [h1]
      have hmem : ρ ∈ tbl.map (fun row => row.role) := by
        simp only [List.any_eq_true, decide_eq_true_eq] at h
        obtain ⟨row, hrow, hrole⟩ := h
        exact hrole ▸ List.mem_map_of_mem _ hrow
      have hle := List.nodup_iff_count_le_one.mp hnd ρ
      have hpos := List.count_pos_iff.mpr hmem
      omega
    · rw [if_neg h, List.countP_append]
      have hno : ∀ x ∈ tbl, ¬ x.role = ρ := by
        intro x hx hc
        exact h (by
          simp only [List.any_eq_true, decide_eq_true_eq]
          exact ⟨x, hx, hc⟩)
      have h0 : List.countP (fun row => row.role == ρ) tbl = 0 := by
        rw [List.countP_eq_zero]
        intro row hrow
        simpa using hno row hrow
      rw [h0]
      simp [List.countP_cons]
  · intro row hrow hrole
    have hmem : row ∈ upsertSignature tbl ρ (some X) nm ps sr now :=
      hperm.mem_iff.mp hrow
    unfold upsertSignature at hmem
    by_cases h : tbl.any (fun r => r.role = ρ)
    · rw [if_pos h] at hmem
      obtain ⟨row0, hrow0, heq⟩ := List.mem_map.mp hmem
      by_cases hr : row0.role = ρ
      · rw [if_pos hr] at heq
        subst heq
        exact ⟨rfl, rfl⟩
      · rw [if_neg hr] at heq
        subst heq
        exact absurd hrole hr
    · rw [if_neg h] at hmem
      have hno : ∀ x ∈ tbl, ¬ x.role = ρ := by
        intro x hx hc
        exact h (by
          simp only [List.any_eq_true, decide_eq_true_eq]
          exact ⟨x, hx, hc⟩)
      rcases List.mem_append.mp hmem with h1 | h1
      · exact absurd hrole (hno row h1)
      · simp only [List.mem_singleton] at h1
        subst h1
        exact ⟨rfl, rfl⟩

/-- C10: `extractRequiredRolesFromConfig` silently truncates configured
roles (or fallback ids): every derived role identifier has length at most
100; a configured role whose trimmed form exceeds 100 characters
contributes exactly its first 100 characters to the required set; and a
submitted role longer than 100 characters can never satisfy any customer
requirement — `assertRolesAllowed` rejects it. -/
theorem C10_truncation (config : List ConfigSigItem) :
    (∀ r ∈ extractRequiredRolesFromConfig config, r.length ≤ 100) ∧
    (∀ s ∈ config, ∀ v, s.role = some v → (jsTrim v).length > 100 →
      String.mk ((jsTrim v).data.take 100) ∈ extractRequiredRolesFromConfig config) ∧
    (∀ party : String, ∀ p : String, p.length > 100 →
      checkAllowed party [p]
        (splitRolesBySigner (extractRequiredRolesFromConfig config)).customer ≠ none) := by
  refine ⟨fun r hr => extract_length_le hr, ?_, ?_⟩
  · intro s hs v hv hlen
    apply mem_extract_iff.mpr
    refine ⟨s, hs, ?_⟩
    have hne : ¬ jsTrim v = "" := by
      intro hc
      rw [hc] at hlen
      exact absurd hlen (by decide)
    unfold effectiveRole
    rw [hv]
    simp only [safeStr]
    rw [if_neg hne, if_pos hlen]
    rfl
  · intro party p hlen hc
    have hmem := checkAllowed_none_iff.mp hc p (List.mem_singleton_self _)
    rw [splitRolesBySigner_customer] at hmem
    have : p ∈ extractRequiredRolesFromConfig config := List.mem_of_mem_filter hmem
    have := extract_length_le this
    omega

/-- C3 counterexample: the claim sends every role identifier containing
`"company"` to the company set, but the classifier tests `"customer"`
first — the role `"customer_company"` contains `"company"` yet the
derived company set is empty. -/
theorem C3_counterexample :
    strIncludes (jsToLower "customer_company") "company" = true ∧
    extractRequiredRolesFromConfig [⟨some "customer_company", none⟩] =
      ["customer_company"] ∧
    (splitRolesBySigner ["customer_company"]).company = [] ∧
    (splitRolesBySigner ["customer_company"]).customer = ["customer_company"] := by
  refine ⟨by decide, by decide, by decide, by decide⟩

/-- C3 (amended): the required-role list is the per-element
`safeStr(role) || safeStr(id)` values (role with fallback to id),
deduplicated keeping the first occurrence (a duplicate-free sublist of
the raw occurrence list with the same members); the partition sends a
role containing `"customer"` (case-insensitively) to the customer set,
a role containing `"company"` but not `"customer"` to the company set,
and excludes roles matching neither from both sets. -/
theorem C3_role_derivation (config : List ConfigSigItem) (r : String) :
    (r ∈ extractRequiredRolesFromConfig config ↔
      ∃ s ∈ config, effectiveRole s = some r) ∧
    (∀ s : ConfigSigItem,
      effectiveRole s = (safeStr s.role 100).orElse (fun _ => safeStr s.id 100)) ∧
    (extractRequiredRolesFromConfig config).Nodup ∧
    (extractRequiredRolesFromConfig config).Sublist
      (config.filterMap effectiveRole) ∧
    (r ∈ (splitRolesBySigner (extractRequiredRolesFromConfig config)).customer ↔
      r ∈ extractRequiredRolesFromConfig config ∧
        strIncludes (jsToLower r) "customer" = true) ∧
    (r ∈ (splitRolesBySigner (extractRequiredRolesFromConfig config)).company ↔
      r ∈ extractRequiredRolesFromConfig config ∧
        strIncludes (jsToLower r) "customer" = false ∧
        strIncludes (jsToLower r) "company" = true) := by
  refine ⟨mem_extract_iff, fun s => rfl, extract_nodup config,
    uniqKeepFirst_sublist _, ?_, ?_⟩
  · rw [splitRolesBySigner_customer, List.mem_filter]
  · rw [splitRolesBySigner_company, List.mem_filter]
    constructor
    · intro ⟨h1, h2⟩
      simp only [Bool.and_eq_true, Bool.not_eq_true'] at h2
      exact ⟨h1, h2.1, h2.2⟩
    · intro ⟨h1, h2, h3⟩
      refine ⟨h1, ?_⟩
      simp [h2, h3]

/-- The data-model invariant of C2: a non-null `final_sent_at` implies
the terminal `COMPLETED` status. -/
def FinalInv (st : DbState) : Prop :=
  ∀ c, st.contract = some c → c.final_sent_at ≠ none → c.status = .COMPLETED

/-- C2: `final_sent_at` is non-null only at status `COMPLETED` (the
invariant is preserved by both signing handlers), it never transitions
away from a non-null value (so it is set at most once), the finalization
step sets it only under the guard that it is still null, and when that
conditional update matches zero rows the call reports the non-error
already-sent outcome with the state untouched. -/
theorem C2_final_sent_at (st : DbState) (payload : List (String × SigPayloadVal))
    (env : ExtEnv) (now t : Nat) (snap : ContractRow) (db2 : DbState)
    (c2 : ContractRow) :
    (FinalInv st → FinalInv (customerSign st payload env now).2 ∧
      FinalInv (companySign st payload env now).2) ∧
    (∀ c, st.contract = some c → c.final_sent_at = some t →
      (∀ c', (customerSign st payload env now).2.contract = some c' →
        c'.final_sent_at = some t) ∧
      (∀ c', (companySign st payload env now).2.contract = some c' →
        c'.final_sent_at = some t)) ∧
    (snap.final_sent_at = none →
      uniqEmails [snap.company_email, snap.customer_email] ≠ [] →
      env.renderOk = true → (env.oneauthenEnabled = true → env.oneauthenOk = true) →
      env.mailOk = true → db2.contract = some c2 →
      ((c2.final_sent_at = none →
          finalizeTail snap db2 env now =
            (.ok (.companyEmailed env.oneauthenEnabled),
             ⟨some { c2 with final_sent_at := some now }, db2.sigs⟩)) ∧
       (∀ t2, c2.final_sent_at = some t2 →
          finalizeTail snap db2 env now = (.ok .companyAlreadySentRace, db2)))) := by
  refine ⟨?_, ?_, ?_⟩
  · intro hinv
    constructor
    · intro c' hc' hfin
      rcases customerSign_post st payload env now with h | ⟨c, hc, hst, h⟩
      · exact hinv c' (h ▸ hc') hfin
      · rw [h] at hc'
        cases hc'
        exfalso
        apply hfin
        have := hinv c hc
        rcases hf : c.final_sent_at with _ | t0
        · rfl
        · have := this (by simp [hf])
          rw [this] at hst
          cases hst
    · intro c' hc' hfin
      rcases companySign_post st payload env now with h | ⟨c, hc, hst, h | ⟨hf, h⟩⟩
      · exact hinv c' (h ▸ hc') hfin
      · rw [h] at hc'
        cases hc'
        rfl
      · rw [h] at hc'
        cases hc'
        rfl
  · intro c hc hfin
    constructor
    · intro c' hc'
      rcases customerSign_post st payload env now with h | ⟨c0, hc0, hst, h⟩
      · rw [h, hc] at hc'
        cases hc'
        exact hfin
      · rw [hc0] at hc
        cases hc
        rw [h] at hc'
        cases hc'
        exact hfin
    · intro c' hc'
      rcases companySign_post st payload env now with h | ⟨c0, hc0, hst, h | ⟨hf, h⟩⟩
      · rw [h, hc] at hc'
        cases hc'
        exact hfin
      · rw [hc0] at hc
        cases hc
        rw [h] at hc'
        cases hc'
        exact hfin
      · rw [hc0] at hc
        cases hc
        rw [hfin] at hf
        cases hf
  · intro hsnap hto hrender honea hmail hdb
    have hnotsome : snap.final_sent_at.isSome = false := by
      rw [hsnap]; rfl
    have hone : (env.oneauthenEnabled && !env.oneauthenOk) = false := by
      rcases he : env.oneauthenEnabled
      · rfl
      · simp [honea he]
    constructor
    · intro hf
      simp only [finalizeTail]
      rw [if_neg (by simpa [List.isEmpty_eq_false] using hto), hnotsome]
      simp only [Bool.false_eq_true, if_false, hrender, Bool.not_true, hone, hmail, hdb, hf]
    · intro t2 hf
      simp only [finalizeTail]
      rw [if_neg (by simpa [List.isEmpty_eq_false] using hto), hnotsome]
      simp only [Bool.false_eq_true, if_false, hrender, Bool.not_true, hone, hmail, hdb, hf]

/-! ### Branch-computation lemmas for the two handlers -/

theorem customerSign_checkAllowed_err (st : DbState)
    (payload : List (String × SigPayloadVal)) (env : ExtEnv) (now : Nat)
    (c : ContractRow) (e : SignErr)
    (hsome : st.contract = some c)
    (hitems : normalizeSignaturesPayload payload ≠ [])
    (hst : c.status = .PENDING)
    (hreq : requiredCustomerOf c ≠ [])
    (hval : validateItems (normalizeSignaturesPayload payload) = none)
    (hchk : checkAllowed "CUSTOMER"
      ((normalizeSignaturesPayload payload).map (fun it => it.role))
      (requiredCustomerOf c) = some e) :
    customerSign st payload env now = (.error e, st) := by
  simp only [customerSign, hsome, hst, hval, hchk]
  rw [if_neg (by simpa [List.isEmpty_iff] using hitems),
    if_neg (by decide), if_neg (by decide),
    if_neg (by simpa [List.isEmpty_iff] using hreq)]

theorem companySign_checkAllowed_err (st : DbState)
    (payload : List (String × SigPayloadVal)) (env : ExtEnv) (now : Nat)
    (c : ContractRow) (e : SignErr)
    (hsome : st.contract = some c)
    (hitems : normalizeSignaturesPayload payload ≠ [])
    (hst : c.status = .CUSTOMER_SIGNED)
    (hreq : requiredCompanyOf c ≠ [])
    (hval : validateItems (normalizeSignaturesPayload payload) = none)
    (hchk : checkAllowed "COMPANY"
      ((normalizeSignaturesPayload payload).map (fun it => it.role))
      (requiredCompanyOf c) = some e) :
    companySign st payload env now = (.error e, st) := by
  simp only [companySign, hsome, hst, hval, hchk]
  rw [if_neg (by simpa [List.isEmpty_iff] using hitems),
    if_neg (by decide),
    if_neg (by simpa [List.isEmpty_iff] using hreq)]

theorem customerSign_missing_branch (st : DbState)
    (payload : List (String × SigPayloadVal)) (env : ExtEnv) (now : Nat)
    (c : ContractRow)
    (hsome : st.contract = some c)
    (hitems : normalizeSignaturesPayload payload ≠ [])
    (hst : c.status = .PENDING)
    (hreq : requiredCustomerOf c ≠ [])
    (hval : validateItems (normalizeSignaturesPayload payload) = none)
    (hchk : checkAllowed "CUSTOMER"
      ((normalizeSignaturesPayload payload).map (fun it => it.role))
      (requiredCustomerOf c) = none)
    (hmiss : assertSignedAll (requiredCustomerOf c)
      (groupSignaturesToMap
        (doUpserts st.sigs (normalizeSignaturesPayload payload) "CUSTOMER" now))
      "CUSTOMER" ≠ []) :
    customerSign st payload env now =
      (.ok (.customerMissingSome
        (groupSignaturesToMap
          (doUpserts st.sigs (normalizeSignaturesPayload payload) "CUSTOMER" now)).CUSTOMER.length
        (requiredCustomerOf c).length
        (assertSignedAll (requiredCustomerOf c)
          (groupSignaturesToMap
            (doUpserts st.sigs (normalizeSignaturesPayload payload) "CUSTOMER" now))
          "CUSTOMER")),
       ⟨some c, doUpserts st.sigs (normalizeSignaturesPayload payload) "CUSTOMER" now⟩) := by
  simp only [customerSign, hsome, hst, hval, hchk]
  rw [if_neg (by simpa [List.isEmpty_iff] using hitems),
    if_neg (by decide), if_neg (by decide),
    if_neg (by simpa [List.isEmpty_iff] using hreq),
    if_neg (by simpa [List.isEmpty_iff] using hmiss)]

/-- C5 counterexample: the claim says the `RoleNotAllowed` rejection
reports the offending role and the full allowed set, but the error is
round-tripped through the colon-packed message `ROLE_NOT_ALLOWED:r:a`:
for the submitted role `"x:y"` (well-formed and not allowed, against the
allowed set `["customer_a"]`) the handler reports role `"x"` and allowed
set `["y"]`. -/
theorem C5_counterexample :
    customerSign
        ⟨some ⟨[⟨some "customer_a", none⟩], .PENDING, none, none, none⟩, []⟩
        [("x:y", .str "data:image/png;base64,Q")] ⟨true, false, true, true, true⟩ 0 =
      (.error (.roleNotAllowed "CUSTOMER" "x" ["y"]),
       ⟨some ⟨[⟨some "customer_a", none⟩], .PENDING, none, none, none⟩, []⟩) ∧
    ("x" : String) ≠ "x:y" ∧ (["y"] : List String) ≠ ["customer_a"] := by
  exact ⟨rfl, by decide, by decide⟩

/-- C5 (amended): a signing call whose items are all well-formed but
include a role outside the submitting party's required set is rejected
with `RoleNotAllowed` and the state is unchanged (no signature written);
provided the submitted roles contain no `':'` and the required roles are
clean (no `':'` or `','`, trimmed, non-empty — which colon- and
comma-free identifiers like `customer_x` satisfy), the rejection reports
an offending submitted role and the full allowed set exactly. -/
theorem C5_roleNotAllowed_reporting (st : DbState)
    (payload : List (String × SigPayloadVal)) (env : ExtEnv) (now : Nat)
    (c : ContractRow)
    (hsome : st.contract = some c)
    (hitems : normalizeSignaturesPayload payload ≠ [])
    (hvalid : ∀ it ∈ normalizeSignaturesPayload payload,
      validateRoleBasic it.role = true ∧ isDataUrl it.image = true)
    (hrclean : ∀ it ∈ normalizeSignaturesPayload payload, ':' ∉ it.role.data) :
    (c.status = .PENDING → requiredCustomerOf c ≠ [] →
      (∀ a ∈ requiredCustomerOf c, cleanRole a) →
      (∃ it ∈ normalizeSignaturesPayload payload,
        it.role ∉ requiredCustomerOf c) →
      ∃ r0 ∈ (normalizeSignaturesPayload payload).map (fun it => it.role),
        r0 ∉ requiredCustomerOf c ∧
        customerSign st payload env now =
          (.error (.roleNotAllowed "CUSTOMER" r0 (requiredCustomerOf c)), st)) ∧
    (c.status = .CUSTOMER_SIGNED → requiredCompanyOf c ≠ [] →
      (∀ a ∈ requiredCompanyOf c, cleanRole a) →
      (∃ it ∈ normalizeSignaturesPayload payload,
        it.role ∉ requiredCompanyOf c) →
      ∃ r0 ∈ (normalizeSignaturesPayload payload).map (fun it => it.role),
        r0 ∉ requiredCompanyOf c ∧
        companySign st payload env now =
          (.error (.roleNotAllowed "COMPANY" r0 (requiredCompanyOf c)), st)) := by
  have hval : validateItems (normalizeSignaturesPayload payload) = none :=
    validateItems_none_iff.mpr hvalid
  constructor
  · intro hst hreq hclean hbad
    obtain ⟨it, hit, hnotin⟩ := hbad
    obtain ⟨r0, hr0mem, hr0not, hchk⟩ :=
      checkAllowed_some_of "CUSTOMER"
        (List.mem_map_of_mem (fun it => it.role) hit) hnotin
    have hr0clean : ':' ∉ r0.data := by
      obtain ⟨it0, hit0, heq⟩ := List.mem_map.mp hr0mem
      exact heq ▸ hrclean it0 hit0
    have hdec : decodeRoleNotAllowed "CUSTOMER"
        (roleNotAllowedMsg r0 (requiredCustomerOf c)) =
        .roleNotAllowed "CUSTOMER" r0 (requiredCustomerOf c) :=
      decode_clean hr0clean hclean (requiredCustomerOf_nodup c) hreq
    rw [hdec] at hchk
    exact ⟨r0, hr0mem, hr0not,
      customerSign_checkAllowed_err st payload env now c _ hsome hitems hst hreq hval hchk⟩
  · intro hst hreq hclean hbad
    obtain ⟨it, hit, hnotin⟩ := hbad
    obtain ⟨r0, hr0mem, hr0not, hchk⟩ :=
      checkAllowed_some_of "COMPANY"
        (List.mem_map_of_mem (fun it => it.role) hit) hnotin
    have hr0clean : ':' ∉ r0.data := by
      obtain ⟨it0, hit0, heq⟩ := List.mem_map.mp hr0mem
      exact heq ▸ hrclean it0 hit0
    have hdec : decodeRoleNotAllowed "COMPANY"
        (roleNotAllowedMsg r0 (requiredCompanyOf c)) =
        .roleNotAllowed "COMPANY" r0 (requiredCompanyOf c) :=
      decode_clean hr0clean hclean (requiredCompanyOf_nodup c) hreq
    rw [hdec] at hchk
    exact ⟨r0, hr0mem, hr0not,
      companySign_checkAllowed_err st payload env now c _ hsome hitems hst hreq hval hchk⟩

/-- C1 counterexample: with required customer roles
`customer_a, customer_b` and `customer_b` already stored, submitting the
strict subset `{customer_a}` of the customer-role set does not leave the
status at `PENDING` and does not report a partial result — completeness
is recomputed from the store, so the call transitions to
`CUSTOMER_SIGNED`. -/
theorem C1_counterexample :
    requiredCustomerOf
        ⟨[⟨some "customer_a", none⟩, ⟨some "customer_b", none⟩],
          .PENDING, none, none, none⟩ = ["customer_a", "customer_b"] ∧
    (customerSign
        ⟨some ⟨[⟨some "customer_a", none⟩, ⟨some "customer_b", none⟩],
          .PENDING, none, none, none⟩,
         [⟨"customer_b", some "data:image/png;base64,Z", none, none, "CUSTOMER", 1⟩]⟩
        [("customer_a", .str "data:image/png;base64,x")]
        ⟨true, false, true, true, true⟩ 7).1 = .ok (.customerCompleted false) ∧
    (customerSign
        ⟨some ⟨[⟨some "customer_a", none⟩, ⟨some "customer_b", none⟩],
          .PENDING, none, none, none⟩,
         [⟨"customer_b", some "data:image/png;base64,Z", none, none, "CUSTOMER", 1⟩]⟩
        [("customer_a", .str "data:image/png;base64,x")]
        ⟨true, false, true, true, true⟩ 7).2.contract =
      some ⟨[⟨some "customer_a", none⟩, ⟨some "customer_b", none⟩],
        .CUSTOMER_SIGNED, none, none, none⟩ := by
  exact ⟨rfl, rfl, rfl⟩

/-- C1 (amended): on a `PENDING` contract with a non-empty derived
customer-role set, a customer-sign call submitting valid signatures for
a strict subset of that set — such that at least one required role
outside the submitted subset has no stored customer signature image —
commits the submitted signatures, leaves the contract row (and hence the
`PENDING` status) unchanged, and returns the non-error partial result
listing exactly the required customer roles that still lack a stored
signature image. -/
theorem C1_partial_customer_sign (st : DbState)
    (payload : List (String × SigPayloadVal)) (env : ExtEnv) (now : Nat)
    (c : ContractRow)
    (hsome : st.contract = some c)
    (hst : c.status = .PENDING)
    (hitems : normalizeSignaturesPayload payload ≠ [])
    (hpnd : ((normalizeSignaturesPayload payload).map (fun it => it.role)).Nodup)
    (hvalid : ∀ it ∈ normalizeSignaturesPayload payload,
      validateRoleBasic it.role = true ∧ isDataUrl it.image = true)
    (hsub : ∀ it ∈ normalizeSignaturesPayload payload,
      it.role ∈ requiredCustomerOf c)
    (hdbnd : (st.sigs.map (fun row => row.role)).Nodup)
    (hparty : ∀ row ∈ st.sigs,
      row.role ∈ (normalizeSignaturesPayload payload).map (fun it => it.role) →
      row.signer_role = "CUSTOMER")
    (hstrict : ∃ r ∈ requiredCustomerOf c,
      r ∉ (normalizeSignaturesPayload payload).map (fun it => it.role) ∧
      storedTruthy st.sigs "CUSTOMER" r = false) :
    (∃ sc, (customerSign st payload env now).1 =
      .ok (.customerMissingSome sc (requiredCustomerOf c).length
        ((requiredCustomerOf c).filter (fun r =>
          !(((normalizeSignaturesPayload payload).map (fun it => it.role)).contains r) &&
          !storedTruthy st.sigs "CUSTOMER" r)))) ∧
    (customerSign st payload env now).2.contract = some c ∧
    (∀ it ∈ normalizeSignaturesPayload payload,
      ∃ row ∈ (customerSign st payload env now).2.sigs,
        row.role = it.role ∧ row.signature_image = it.image ∧
        row.signer_role = "CUSTOMER") := by
  have hreq : requiredCustomerOf c ≠ [] := by
    obtain ⟨r, hr, -⟩ := hstrict
    exact List.ne_nil_of_mem hr
  have hval : validateItems (normalizeSignaturesPayload payload) = none :=
    validateItems_none_iff.mpr hvalid
  have hchk : checkAllowed "CUSTOMER"
      ((normalizeSignaturesPayload payload).map (fun it => it.role))
      (requiredCustomerOf c) = none := by
    apply checkAllowed_none_iff.mpr
    intro r hr
    obtain ⟨it0, hit0, heq⟩ := List.mem_map.mp hr
    exact heq ▸ hsub it0 hit0
  have hnd2 : ((doUpserts st.sigs (normalizeSignaturesPayload payload)
      "CUSTOMER" now).map (fun row => row.role)).Nodup := doUpserts_nodup hdbnd
  have hbridge : assertSignedAll (requiredCustomerOf c)
      (groupSignaturesToMap (doUpserts st.sigs
        (normalizeSignaturesPayload payload) "CUSTOMER" now)) "CUSTOMER" =
      (requiredCustomerOf c).filter (fun r =>
        !storedTruthy (doUpserts st.sigs
          (normalizeSignaturesPayload payload) "CUSTOMER" now) "CUSTOMER" r) :=
    assertSignedAll_eq_filter (Or.inl rfl) hnd2
  have hpoint : ∀ r ∈ requiredCustomerOf c,
      (!storedTruthy (doUpserts st.sigs (normalizeSignaturesPayload payload)
        "CUSTOMER" now) "CUSTOMER" r) =
      (!(((normalizeSignaturesPayload payload).map (fun it => it.role)).contains r) &&
        !storedTruthy st.sigs "CUSTOMER" r) := by
    intro r _
    by_cases hrmem : r ∈ (normalizeSignaturesPayload payload).map (fun it => it.role)
    · have hstored : storedTruthy (doUpserts st.sigs
          (normalizeSignaturesPayload payload) "CUSTOMER" now) "CUSTOMER" r = true :=
        storedTruthy_doUpserts_mem
          (fun it hit => isDataUrl_truthy (hvalid it hit).2)
          (by decide) hparty hrmem
      have hcont : (((normalizeSignaturesPayload payload).map
          (fun it => it.role)).contains r) = true := by
        simpa using hrmem
      rw [hstored, hcont]
      rfl
    · have hstored : storedTruthy (doUpserts st.sigs
          (normalizeSignaturesPayload payload) "CUSTOMER" now) "CUSTOMER" r =
          storedTruthy st.sigs "CUSTOMER" r :=
        storedTruthy_doUpserts_not_mem hrmem
      have hcont : (((normalizeSignaturesPayload payload).map
          (fun it => it.role)).contains r) = false := by
        simpa using hrmem
      rw [hstored, hcont]
      rfl
  have hfilter : (requiredCustomerOf c).filter
      (fun r => !storedTruthy (doUpserts st.sigs
        (normalizeSignaturesPayload payload) "CUSTOMER" now) "CUSTOMER" r) =
      (requiredCustomerOf c).filter (fun r =>
        !(((normalizeSignaturesPayload payload).map (fun it => it.role)).contains r) &&
        !storedTruthy st.sigs "CUSTOMER" r) :=
    List.filter_congr hpoint
  have hmiss : assertSignedAll (requiredCustomerOf c)
      (groupSignaturesToMap (doUpserts st.sigs
        (normalizeSignaturesPayload payload) "CUSTOMER" now)) "CUSTOMER" =
      (requiredCustomerOf c).filter (fun r =>
        !(((normalizeSignaturesPayload payload).map (fun it => it.role)).contains r) &&
        !storedTruthy st.sigs "CUSTOMER" r) := by
    rw [hbridge, hfilter]
  have hmissne : assertSignedAll (requiredCustomerOf c)
      (groupSignaturesToMap (doUpserts st.sigs
        (normalizeSignaturesPayload payload) "CUSTOMER" now)) "CUSTOMER" ≠ [] := by
    rw [hmiss]
    obtain ⟨r, hr, hnot, hstored⟩ := hstrict
    refine List.ne_nil_of_mem (List.mem_filter.mpr ⟨hr, ?_⟩)
    have hcont : (((normalizeSignaturesPayload payload).map
        (fun it => it.role)).contains r) = false := by
      simpa using hnot
    rw [hcont, hstored]
    rfl
  have hrun := customerSign_missing_branch st payload env now c
    hsome hitems hst hreq hval hchk hmissne
  rw [hrun]
  refine ⟨⟨_, by rw [hmiss]⟩, rfl, ?_⟩
  intro it hit
  exact exists_row_doUpserts hpnd hparty it hit

/-! ## Witnesses -/

/-- Witness for C1: fresh two-role contract, one role submitted — the
contract row (status `PENDING`) is unchanged by the partial call. -/
theorem C1_witness :
    (customerSign
        ⟨some ⟨[⟨some "customer_a", none⟩, ⟨some "customer_b", none⟩],
          .PENDING, none, none, none⟩, []⟩
        [("customer_a", .str "data:image/png;base64,x")]
        ⟨true, false, true, true, true⟩ 7).2.contract =
      some ⟨[⟨some "customer_a", none⟩, ⟨some "customer_b", none⟩],
        .PENDING, none, none, none⟩ :=
  (C1_partial_customer_sign
    ⟨some ⟨[⟨some "customer_a", none⟩, ⟨some "customer_b", none⟩],
      .PENDING, none, none, none⟩, []⟩
    [("customer_a", .str "data:image/png;base64,x")]
    ⟨true, false, true, true, true⟩ 7
    ⟨[⟨some "customer_a", none⟩, ⟨some "customer_b", none⟩],
      .PENDING, none, none, none⟩
    rfl rfl (by decide) (by decide) (by decide) (by decide) (by decide)
    (by decide)
    ⟨"customer_b", by decide, by decide, by decide⟩).2.1

/-- Witness for C2: the invariant holds after a concrete customer-sign
call, and a concrete zero-row conditional update reports already-sent. -/
theorem C2_witness :
    FinalInv (customerSign
      ⟨some ⟨[⟨some "customer_a", none⟩], .PENDING, none, none, none⟩, []⟩
      [("customer_a", .str "data:image/png;base64,x")]
      ⟨true, false, true, true, true⟩ 9).2 ∧
    finalizeTail ⟨[], .CUSTOMER_SIGNED, some "a@b.c", none, none⟩
      ⟨some ⟨[], .COMPLETED, some "a@b.c", none, some 5⟩, []⟩
      ⟨true, false, true, true, true⟩ 9 =
      (.ok .companyAlreadySentRace,
       ⟨some ⟨[], .COMPLETED, some "a@b.c", none, some 5⟩, []⟩) := by
  have h := C2_final_sent_at
    ⟨some ⟨[⟨some "customer_a", none⟩], .PENDING, none, none, none⟩, []⟩
    [("customer_a", .str "data:image/png;base64,x")]
    ⟨true, false, true, true, true⟩ 9 5
    ⟨[], .CUSTOMER_SIGNED, some "a@b.c", none, none⟩
    ⟨some ⟨[], .COMPLETED, some "a@b.c", none, some 5⟩, []⟩
    ⟨[], .COMPLETED, some "a@b.c", none, some 5⟩
  exact ⟨(h.1 (by intro c hc hf; cases hc; exact absurd rfl hf)).1,
    (h.2.2 rfl (by decide) rfl (by decide) rfl rfl).2 5 rfl⟩

/-- Witness for C4: a customer-sign call on a completed contract is
rejected with the already-completed error and the state is unchanged. -/
theorem C4_witness :
    customerSign
        ⟨some ⟨[⟨some "customer_a", none⟩], .COMPLETED, none, none, none⟩, []⟩
        [("customer_a", .str "data:image/png;base64,x")]
        ⟨true, false, true, true, true⟩ 0 =
      (.error .alreadyCompleted,
       ⟨some ⟨[⟨some "customer_a", none⟩], .COMPLETED, none, none, none⟩, []⟩) := by
  have h := (C4_state_guards
    ⟨some ⟨[⟨some "customer_a", none⟩], .COMPLETED, none, none, none⟩, []⟩
    [("customer_a", .str "data:image/png;base64,x")]
    ⟨true, false, true, true, true⟩ 0
    ⟨[⟨some "customer_a", none⟩], .COMPLETED, none, none, none⟩
    rfl (by decide)).1 (by decide)
  simpa using h

/-- Witness for C5: submitting the unknown role `boss` against the
required set `[customer_a]` is rejected reporting `boss` and the full
allowed set, with the state unchanged. -/
theorem C5_witness :
    ∃ r0 ∈ (normalizeSignaturesPayload
        [("boss", SigPayloadVal.str "data:image/png;base64,x")]).map
        (fun it => it.role),
      r0 ∉ requiredCustomerOf
        ⟨[⟨some "customer_a", none⟩], .PENDING, none, none, none⟩ ∧
      customerSign
          ⟨some ⟨[⟨some "customer_a", none⟩], .PENDING, none, none, none⟩, []⟩
          [("boss", .str "data:image/png;base64,x")]
          ⟨true, false, true, true, true⟩ 0 =
        (.error (.roleNotAllowed "CUSTOMER" r0
          (requiredCustomerOf
            ⟨[⟨some "customer_a", none⟩], .PENDING, none, none, none⟩)),
         ⟨some ⟨[⟨some "customer_a", none⟩], .PENDING, none, none, none⟩, []⟩) :=
  (C5_roleNotAllowed_reporting
    ⟨some ⟨[⟨some "customer_a", none⟩], .PENDING, none, none, none⟩, []⟩
    [("boss", .str "data:image/png;base64,x")]
    ⟨true, false, true, true, true⟩ 0
    ⟨[⟨some "customer_a", none⟩], .PENDING, none, none, none⟩
    rfl (by decide) (by decide) (by decide)).1
    rfl (by decide) (by decide) (by decide)

/-- Witness for C6: an item with a non-data-URL image is rejected with
the state unchanged. -/
theorem C6_witness :
    ∃ e, customerSign
        ⟨some ⟨[⟨some "customer_a", none⟩], .PENDING, none, none, none⟩, []⟩
        [("customer_a", .str "nope")] ⟨true, false, true, true, true⟩ 0 =
      (.error e,
       ⟨some ⟨[⟨some "customer_a", none⟩], .PENDING, none, none, none⟩, []⟩) :=
  (C6_validation_rolls_back
    ⟨some ⟨[⟨some "customer_a", none⟩], .PENDING, none, none, none⟩, []⟩
    [("customer_a", .str "nope")] ⟨true, false, true, true, true⟩ 0
    ⟨[⟨some "customer_a", none⟩], .PENDING, none, none, none⟩ rfl).1
    (by decide)

/-- Witness for C7: a configuration with no customer-classified role
makes customer-sign fail with the server-side config error, state
unchanged. -/
theorem C7_witness :
    customerSign
        ⟨some ⟨[⟨some "company_w", none⟩], .PENDING, none, none, none⟩, []⟩
        [("customer_a", .str "data:image/png;base64,x")]
        ⟨true, false, true, true, true⟩ 0 =
      (.error (.configErr "CUSTOMER"),
       ⟨some ⟨[⟨some "company_w", none⟩], .PENDING, none, none, none⟩, []⟩) :=
  (C7_configError_before_writes
    ⟨some ⟨[⟨some "company_w", none⟩], .PENDING, none, none, none⟩, []⟩
    [("customer_a", .str "data:image/png;base64,x")]
    ⟨true, false, true, true, true⟩ 0
    ⟨[⟨some "company_w", none⟩], .PENDING, none, none, none⟩
    rfl (by decide)).1 rfl (by decide)

/-- Witness for C8: overwriting a previously signed role leaves exactly
one listed record for it. -/
theorem C8_witness :
    ((getSignaturesByContractId (upsertSignature
        [⟨"r1", some "data:image/old", none, none, "CUSTOMER", 1⟩]
        "r1" (some "data:image/new") none none "CUSTOMER" 5)).countP
      (fun row => row.role == "r1")) = 1 :=
  (C8_upsert_roundtrip
    [⟨"r1", some "data:image/old", none, none, "CUSTOMER", 1⟩]
    "r1" "data:image/new" none none "CUSTOMER" 5 (by decide)).1

/-- Witness for C10: a 101-character configured role contributes its
100-character prefix to the required set. -/
theorem C10_witness :
    String.mk ((jsTrim (String.mk (List.replicate 101 'a'))).data.take 100) ∈
      extractRequiredRolesFromConfig
        [⟨some (String.mk (List.replicate 101 'a')), none⟩] :=
  (C10_truncation [⟨some (String.mk (List.replicate 101 'a')), none⟩]).2.1
    ⟨some (String.mk (List.replicate 101 'a')), none⟩
    (List.mem_singleton_self _)
    (String.mk (List.replicate 101 'a')) rfl (by decide)

end ESign
